import Mathlib

/-!
# neo-js-blockchain: endpoint health tracker and node pool

A shallow embedding of

* `src/core/node.ts` (class `Node`): the per-endpoint benchmarking state
  (`pendingRequests`, `latency`, `blockHeight`, `isActive`, ...) driven by the
  `query:init` / `query:success` / `query:failed` events that `Node.query` emits;
* `dist2/neo.blockchain.neo.js` (class `Neo`): the pool of nodes, its selection
  queries (`getFastestNode`, `getHighestNode`) and its diagnostic sampler.

JavaScript values are modelled by `JSVal`; finite numbers are rationals (NaN and
the infinities are not modelled).  Wall-clock readings (`Date.now()`) are passed
in as explicit integers, in the order in which the code reads the clock.
-/

namespace NeoJs

/-! ## JavaScript values -/

/-- A JavaScript value: `undefined`, `null`, a boolean, a finite number, a string,
or an object given by its own properties in insertion order. -/
inductive JSVal where
  | undefined : JSVal
  | null : JSVal
  | bool (b : Bool) : JSVal
  | num (q : ℚ) : JSVal
  | str (s : String) : JSVal
  | obj (props : List (String × JSVal)) : JSVal

namespace JSVal

/-- JavaScript truthiness (`ToBoolean`): `undefined`, `null`, `false`, `0` and `""`
are falsy, everything else (every object included) is truthy. -/
def truthy : JSVal → Bool
  | undefined => false
  | null => false
  | bool b => b
  | num q => decide (q ≠ 0)
  | str s => decide (s ≠ "")
  | obj _ => true

/-- The value thrown by a property access on `undefined` or `null`. -/
def typeError : JSVal :=
  obj [("name", str "TypeError")]

/-- Property read on a list of own properties: the first entry with that key, or
`undefined` when there is none. -/
def lookup (key : String) : List (String × JSVal) → JSVal
  | [] => undefined
  | (k, v) :: rest => if k = key then v else lookup key rest

/-- Property access `v.key`: throws a `TypeError` on `undefined` and `null`, reads
the own property of an object, and is `undefined` on the other primitives (none of
the keys read by this program is a built-in property of a primitive). -/
def getProp (v : JSVal) (key : String) : Except JSVal JSVal :=
  match v with
  | undefined => Except.error typeError
  | null => Except.error typeError
  | obj props => Except.ok (lookup key props)
  | _ => Except.ok undefined

end JSVal

/-! ## The endpoint health tracker (`src/core/node.ts`) -/

/-- The RPC method names `C.rpc.getblock`, `C.rpc.getblockcount` and
`C.rpc.getversion` of `common/constants`, a module that is not among the sources:
taken as a parameter. -/
structure RpcMethods where
  getblock : String
  getblockcount : String
  getversion : String

/-- The method names of the NEO JSON-RPC protocol, for concrete runs. -/
def neoRpc : RpcMethods :=
  { getblock := "getblock", getblockcount := "getblockcount", getversion := "getversion" }

/-- The mutable fields of a `Node` (`isActive: boolean | undefined`, ...).  The
three fields written from an event payload hold whatever value the payload
carried, so they are JavaScript values. -/
structure Node where
  isActive : Option Bool
  pendingRequests : Int
  latency : JSVal
  blockHeight : JSVal
  lastSeenTimestamp : Option Int
  userAgent : JSVal
  endpoint : String

/-- A freshly constructed `Node`: `pendingRequests = 0`, the endpoint as given,
every other field `undefined`. -/
def newNode (endpoint : String) : Node :=
  { isActive := none
    pendingRequests := 0
    latency := JSVal.undefined
    blockHeight := JSVal.undefined
    lastSeenTimestamp := none
    userAgent := JSVal.undefined
    endpoint := endpoint }

/-- The object passed along with a benchmarking event.  `query` builds
`{ method, params, id }`, `{ method, latency, blockHeight, userAgent }` and
`{ method, error }`; a property that is absent reads as `undefined`. -/
structure Payload where
  method : String
  params : List JSVal
  id : JSVal
  error : JSVal
  latency : JSVal
  blockHeight : JSVal
  userAgent : JSVal

/-- The record returned by `getNodeMeta` (interface `NodeMeta`). -/
structure NodeMeta where
  isActive : Option Bool
  pendingRequests : Int
  latency : JSVal
  blockHeight : JSVal
  lastSeenTimestamp : Option Int
  userAgent : JSVal
  endpoint : String

/-- The method `Node.getNodeMeta`. -/
def getNodeMeta (n : Node) : NodeMeta :=
  { isActive := n.isActive
    pendingRequests := n.pendingRequests
    latency := n.latency
    blockHeight := n.blockHeight
    lastSeenTimestamp := n.lastSeenTimestamp
    userAgent := n.userAgent
    endpoint := n.endpoint }

/-- The call `node.getNodeMeta()` as a step of the `Node`: the record returned
and the `Node` afterwards.  The body is one `return` of an object literal that
reads the seven fields; it writes none and emits nothing. -/
def getNodeMetaStep (n : Node) : NodeMeta × Node :=
  (getNodeMeta n, n)

/-- The method `Node.increasePendingRequest`: `this.pendingRequests += 1`. -/
def increasePendingRequest (n : Node) : Node :=
  { n with pendingRequests := n.pendingRequests + 1 }

/-- The method `Node.decreasePendingRequest`: `this.pendingRequests -= 1`. -/
def decreasePendingRequest (n : Node) : Node :=
  { n with pendingRequests := n.pendingRequests - 1 }

/-- The method `Node.startBenchmark`: the payload is not read. -/
def startBenchmark (_payload : Payload) (n : Node) : Node :=
  increasePendingRequest n

/-- The method `Node.stopBenchmark`, with `now` the reading of `Date.now()`.  The counter is
decreased once on entry and once more in the `payload.error` branch; the three
metadata fields are written only when the payload value is truthy. -/
def stopBenchmark (now : Int) (payload : Payload) (n : Node) : Node :=
  let n1 := decreasePendingRequest n
  if payload.error.truthy then
    let n2 := decreasePendingRequest n1
    let n3 := { n2 with lastSeenTimestamp := some now }
    { n3 with isActive := some false }
  else
    let n2 := { n1 with lastSeenTimestamp := some now }
    let n3 := { n2 with isActive := some true }
    let n4 := if payload.latency.truthy then { n3 with latency := payload.latency } else n3
    let n5 := if payload.blockHeight.truthy then { n4 with blockHeight := payload.blockHeight } else n4
    if payload.userAgent.truthy then { n5 with userAgent := payload.userAgent } else n5

/-- The method `Node.queryInitHandler`. -/
def queryInitHandler (payload : Payload) (n : Node) : Node :=
  startBenchmark payload n

/-- The method `Node.querySuccessHandler`. -/
def querySuccessHandler (now : Int) (payload : Payload) (n : Node) : Node :=
  stopBenchmark now payload n

/-- The method `Node.queryFailedHandler`. -/
def queryFailedHandler (now : Int) (payload : Payload) (n : Node) : Node :=
  stopBenchmark now payload n

/-- The call `this.emit(event, payload)` with the three listeners the constructor
registers; `now` is what `Date.now()` returns while the listener runs.  An event
without a listener changes nothing. -/
def emit (event : String) (now : Int) (payload : Payload) (n : Node) : Node :=
  if event = "query:init" then queryInitHandler payload n
  else if event = "query:success" then querySuccessHandler now payload n
  else if event = "query:failed" then queryFailedHandler now payload n
  else n

/-- How the promise of the transport (`RpcDelegate.query`, not among the sources)
settles: resolved with a response, or rejected with an error. -/
inductive Settled where
  | resolved (res : JSVal) : Settled
  | rejected (err : JSVal) : Settled

/-- What one call does that is visible from outside the `Node`: the events it
emits and the transport invocations, in order. -/
inductive Effect where
  | emitted (event : String) (payload : Payload) : Effect
  | transport (endpoint : String) (method : String) (params : List JSVal) (id : ℚ) : Effect

/-- The end of one call: the `Node` afterwards, the effects in order, and how
the returned promise settles (`Except.ok` resolved, `Except.error` rejected or
thrown). -/
structure QueryRun where
  node : Node
  trace : List Effect
  result : Except JSVal JSVal

/-- The payload `{ method, params, id }` of `query:init`. -/
def initPayload (method : String) (params : List JSVal) (id : ℚ) : Payload :=
  { method := method, params := params, id := JSVal.num id, error := JSVal.undefined,
    latency := JSVal.undefined, blockHeight := JSVal.undefined, userAgent := JSVal.undefined }

/-- The payload `{ method, latency, blockHeight, userAgent }` of `query:success`. -/
def successPayload (method : String) (latency blockHeight userAgent : JSVal) : Payload :=
  { method := method, params := [], id := JSVal.undefined, error := JSVal.undefined,
    latency := latency, blockHeight := blockHeight, userAgent := userAgent }

/-- The payload `{ method, error: err }` of `query:failed`. -/
def failedPayload (method : String) (err : JSVal) : Payload :=
  { method := method, params := [], id := JSVal.undefined, error := err,
    latency := JSVal.undefined, blockHeight := JSVal.undefined, userAgent := JSVal.undefined }

/-- The body of the `.then` callback of `Node.query` up to the `emit`: the
success payload and the result, or the value thrown by `res.result` or
`result.useragent`.  `t0` and `t1` are the two readings of `Date.now()`. -/
def thenCallback (C : RpcMethods) (method : String) (t0 t1 : Int) (res : JSVal) :
    Except JSVal (Payload × JSVal) :=
  match res.getProp "result" with
  | Except.error e => Except.error e
  | Except.ok result =>
    let latency := JSVal.num ((t1 - t0 : Int) : ℚ)
    let blockHeight := if method = C.getblockcount then result else JSVal.undefined
    if method = C.getversion then
      match result.getProp "useragent" with
      | Except.error e => Except.error e
      | Except.ok userAgent => Except.ok (successPayload method latency blockHeight userAgent, result)
    else
      Except.ok (successPayload method latency blockHeight JSVal.undefined, result)

/-- The `.catch` callback of `Node.query`: emit `query:failed` and reject. -/
def catchCallback (method : String) (now : Int) (err : JSVal) (run : QueryRun) : QueryRun :=
  let payload := failedPayload method err
  { node := emit "query:failed" now payload run.node
    trace := run.trace ++ [Effect.emitted "query:failed" payload]
    result := Except.error err }

/-- The method `Node.query(method, params, id)`, run to the settling of its promise.
`settled` is how the transport settles; `t0` is the clock at dispatch, `t1` the
clock at the start of the `.then` callback, `now` the clock inside
`stopBenchmark`.  A value thrown inside the `.then` callback reaches the
`.catch` callback, as a rejection of the transport does. -/
def query (C : RpcMethods) (method : String) (params : List JSVal) (id : ℚ)
    (settled : Settled) (t0 t1 now : Int) (n : Node) : QueryRun :=
  let p0 := initPayload method params id
  let started : QueryRun :=
    { node := emit "query:init" t0 p0 n
      trace := [Effect.emitted "query:init" p0, Effect.transport n.endpoint method params id]
      result := Except.ok JSVal.undefined }
  match settled with
  | Settled.rejected err => catchCallback method now err started
  | Settled.resolved res =>
    match thenCallback C method t0 t1 res with
    | Except.error e => catchCallback method now e started
    | Except.ok (payload, result) =>
      { node := emit "query:success" now payload started.node
        trace := started.trace ++ [Effect.emitted "query:success" payload]
        result := Except.ok result }

/-- The default request id of `Node.query` (`DEFAULT_ID`). -/
def DEFAULT_ID : ℚ := 0

/-- The error thrown for a height that is not acceptable. -/
def validationError : JSVal :=
  JSVal.obj [("name", JSVal.str "ValidationError")]

/-- Modelled from the spec: `NeoValidator.validateHeight` of
`validators/neo-validator`, a module that is not among the sources.  The spec has
`getBlock` fail with `ValidationError` if `height` is not a non-negative integer,
before any network call. -/
def validateHeight (height : ℚ) : Except JSVal Unit :=
  if 0 ≤ height ∧ height.isInt = true then Except.ok () else Except.error validationError

/-- The method `Node.getBlock(height, isVerbose)`: validate, then
`query(C.rpc.getblock, [height, verboseKey])`.  A throw of the validator leaves
the method before `query` is entered. -/
def getBlock (C : RpcMethods) (height : ℚ) (isVerbose : Bool)
    (settled : Settled) (t0 t1 now : Int) (n : Node) : QueryRun :=
  match validateHeight height with
  | Except.error e => { node := n, trace := [], result := Except.error e }
  | Except.ok _ =>
    let verboseKey : ℚ := if isVerbose then 1 else 0
    query C C.getblock [JSVal.num height, JSVal.num verboseKey] DEFAULT_ID settled t0 t1 now n

/-- The method `Node.getBlockCount()`: `query(C.rpc.getblockcount)`. -/
def getBlockCount (C : RpcMethods) (settled : Settled) (t0 t1 now : Int) (n : Node) : QueryRun :=
  query C C.getblockcount [] DEFAULT_ID settled t0 t1 now n

/-- The method `Node.getVersion()`: `query(C.rpc.getversion)`. -/
def getVersion (C : RpcMethods) (settled : Settled) (t0 t1 now : Int) (n : Node) : QueryRun :=
  query C C.getversion [] DEFAULT_ID settled t0 t1 now n

/-- A benchmarking event as it reaches the `Node`, with the clock reading during
its listener. -/
inductive QueryEvent where
  | init (payload : Payload) : QueryEvent
  | success (now : Int) (payload : Payload) : QueryEvent
  | failed (now : Int) (payload : Payload) : QueryEvent

/-- A call-start event. -/
def QueryEvent.isStart : QueryEvent → Bool
  | QueryEvent.init _ => true
  | _ => false

/-- Deliver one event to the `Node`. -/
def deliver (n : Node) : QueryEvent → Node
  | QueryEvent.init p => emit "query:init" 0 p n
  | QueryEvent.success now p => emit "query:success" now p n
  | QueryEvent.failed now p => emit "query:failed" now p n

/-- Deliver a sequence of events, first to last. -/
def deliverAll (n : Node) (events : List QueryEvent) : Node :=
  events.foldl deliver n

/-- Number of call-start events. -/
def countStarts (events : List QueryEvent) : Nat :=
  (events.filter (fun e => e.isStart)).length

/-- Number of call-end events. -/
def countEnds (events : List QueryEvent) : Nat :=
  (events.filter (fun e => !e.isStart)).length

/-- Scan of a sequence with `unmatched` call-starts still open: a call-start
opens one more, a call-end needs an open one and closes it. -/
def matchedFrom : Nat → List QueryEvent → Bool
  | _, [] => true
  | unmatched, e :: rest =>
    if e.isStart then matchedFrom (unmatched + 1) rest
    else decide (0 < unmatched) && matchedFrom (unmatched - 1) rest

/-- Every call-end is matched to an earlier unmatched call-start. -/
def wellMatched (events : List QueryEvent) : Bool :=
  matchedFrom 0 events

/-! ## The node pool (`dist2/neo.blockchain.neo.js`)

The objects of `this.nodes` are identified by their position in the list: a
reference to a pool member (`currentNode`, the value returned by a selection
query, the `targetNode` of a diagnostic sample) is its index, so a write through
one reference is seen through every other.  `undefined` is `none`. -/

/-- The handle `new Rpc(url, { eventEmitter })`; the class is in
`dist2/neo.blockchain.rpc`, not among the sources, and is kept as the url it
was built with. -/
structure Rpc where
  url : Option String
deriving DecidableEq, Repr

/-- The value of a counter property: absent (`undefined`), `NaN`, or an integer.
`NaN` is what `undefined + 1` evaluates to. -/
inductive JSNumber where
  | undefined : JSNumber
  | nan : JSNumber
  | int (k : Int) : JSNumber
deriving DecidableEq, Repr

/-- Truthiness of a counter: `undefined`, `NaN` and `0` are falsy. -/
def JSNumber.truthy : JSNumber → Bool
  | JSNumber.undefined => false
  | JSNumber.nan => false
  | JSNumber.int k => decide (k ≠ 0)

/-- The sum `a + d` of a counter and an integer, as `a += 1` and `a -= 1`
compute it: `NaN` when `a` is `undefined` or `NaN`. -/
def JSNumber.plus : JSNumber → Int → JSNumber
  | JSNumber.undefined, _ => JSNumber.nan
  | JSNumber.nan, _ => JSNumber.nan
  | JSNumber.int k, d => JSNumber.int (k + d)

/-- An entry of `this.nodes`: the `scheme`, `host` and `port` of the enum entry
and the attributes the pool adds to it.  `latency` is a difference of two
`Date`s in milliseconds and `blockHeight` the height answered by
`getBlockCount`, both integers when present. -/
structure PoolNode where
  scheme : String
  host : String
  port : String
  url : Option String
  rpc : Option Rpc
  pendingRequests : JSNumber
  active : Option Bool
  latency : Option Int
  blockHeight : Option Int
deriving DecidableEq, Repr

/-- The options of the client after `_.assign({}, Neo.Defaults, options)`. -/
structure Options where
  verboseLevel : Int
  diagnosticInterval : Int
  localNodeEnabled : Bool
deriving DecidableEq, Repr

/-- The constant `Neo.Defaults` (the event emitter and the enum apart). -/
def Defaults : Options :=
  { verboseLevel := 2, diagnosticInterval := 0, localNodeEnabled := false }

/-- What a periodic task registered with `setInterval` runs at each tick. -/
inductive Task where
  | diagnoseRandomNode : Task
  | leaderboard : Task
deriving DecidableEq, Repr

/-- One `setInterval(task, period)` registration. -/
structure Interval where
  task : Task
  period : Int
deriving DecidableEq, Repr

/-- The state of a `Neo` client. -/
structure Neo where
  options : Options
  nodes : List PoolNode
  currentNode : Option Nat
  rpc : Option Rpc
  intervals : List Interval
deriving DecidableEq, Repr

/-- Truthiness of a property that is `undefined` or a string. -/
def truthyString : Option String → Bool
  | none => false
  | some s => decide (s ≠ "")

/-- Truthiness of a property that is `undefined` or a boolean. -/
def truthyBool : Option Bool → Bool
  | none => false
  | some b => b

/-- The static method `Neo.GetNodeUrl`: the template string with scheme, host and port. -/
def GetNodeUrl (node : PoolNode) : String :=
  node.scheme ++ "://" ++ node.host ++ ":" ++ node.port

/-- The body of `_initNode` on the object itself: fill in `url`, `rpc` and
`pendingRequests` where they are falsy. -/
def initNodeObject (node : PoolNode) : PoolNode :=
  let n1 := if !truthyString node.url then { node with url := some (GetNodeUrl node) } else node
  let n2 := if n1.rpc.isNone then { n1 with rpc := some { url := n1.url } } else n1
  if !n2.pendingRequests.truthy then { n2 with pendingRequests := JSNumber.int 0 } else n2

/-- The method `Neo.prototype._initNode(node)`: reading `node.url` of `undefined` throws;
otherwise the object behind the reference is initialised in place. -/
def _initNode (node : Option Nat) (neo : Neo) : Except JSVal Neo :=
  match node with
  | none => Except.error JSVal.typeError
  | some i => Except.ok { neo with nodes := neo.nodes.modify initNodeObject i }

/-- The method `Neo.prototype._setCurrentNode(node)`. -/
def _setCurrentNode (node : Option Nat) (neo : Neo) : Except JSVal Neo :=
  match _initNode node neo with
  | Except.error e => Except.error e
  | Except.ok neo1 =>
    match node with
    | none => Except.error JSVal.typeError
    | some i =>
      match neo1.nodes[i]? with
      | none => Except.error JSVal.typeError
      | some obj => Except.ok { neo1 with currentNode := some i, rpc := obj.rpc }

/-- The element `this.nodes[0]` as a reference: `undefined` on an empty list. -/
def firstNode (neo : Neo) : Option Nat :=
  if 0 < neo.nodes.length then some 0 else none

/-- The function `_.filter(collection, 'active')` of lodash (an external
library): the elements whose `active` property is truthy, in order, each with its
reference. -/
def filterActive (nodes : List PoolNode) : List (Nat × PoolNode) :=
  nodes.enum.filter (fun p => truthyBool p.2.active)

/-- The loop of `baseExtremum(array, iteratee, comparator)` of lodash, which
`_.minBy` and `_.maxBy` share: an element whose iteratee value is `undefined` is
skipped, the first other element is taken, and a later element replaces the
chosen one only when `comparator(current, computed)` holds.  `acc` is the pair
`(result, computed)` so far. -/
def baseExtremum {α : Type} (iteratee : α → Option Int) (comparator : Int → Int → Bool) :
    List α → Option (α × Int) → Option (α × Int)
  | [], acc => acc
  | value :: rest, acc =>
    match iteratee value with
    | none => baseExtremum iteratee comparator rest acc
    | some current =>
      match acc with
      | none => baseExtremum iteratee comparator rest (some (value, current))
      | some (result, computed) =>
        if comparator current computed then
          baseExtremum iteratee comparator rest (some (value, current))
        else
          baseExtremum iteratee comparator rest (some (result, computed))

/-- The function `_.minBy(array, iteratee)` of lodash: `baseExtremum` with
`baseLt` (`value < other`), `undefined` when nothing was chosen. -/
def minBy {α : Type} (array : List α) (iteratee : α → Option Int) : Option α :=
  (baseExtremum iteratee (fun value other => decide (value < other)) array none).map Prod.fst

/-- The function `_.maxBy(array, iteratee)` of lodash: `baseExtremum` with
`baseGt` (`value > other`). -/
def maxBy {α : Type} (array : List α) (iteratee : α → Option Int) : Option α :=
  (baseExtremum iteratee (fun value other => decide (value > other)) array none).map Prod.fst

/-- The method `Neo.prototype.getFastestNode`:
`_.minBy(_.filter(this.nodes, 'active'), 'latency') || this.nodes[0]`. -/
def getFastestNode (neo : Neo) : Option Nat :=
  match minBy (filterActive neo.nodes) (fun p => p.2.latency) with
  | some p => some p.1
  | none => firstNode neo

/-- The method `Neo.prototype.getHighestNode`:
`_.maxBy(_.filter(this.nodes, 'active'), 'blockHeight') || this.nodes[0]`. -/
def getHighestNode (neo : Neo) : Option Nat :=
  match maxBy (filterActive neo.nodes) (fun p => p.2.blockHeight) with
  | some p => some p.1
  | none => firstNode neo

/-- The method `Neo.prototype.getCurrentNode`. -/
def getCurrentNode (neo : Neo) : Option Nat :=
  neo.currentNode

/-- The method `Neo.prototype.setDefaultNode`. -/
def setDefaultNode (neo : Neo) : Except JSVal Neo :=
  _setCurrentNode (firstNode neo) neo

/-- The method `Neo.prototype.setFastestNode`. -/
def setFastestNode (neo : Neo) : Except JSVal Neo :=
  _setCurrentNode (getFastestNode neo) neo

/-- The method `Neo.prototype.setHighestNode`. -/
def setHighestNode (neo : Neo) : Except JSVal Neo :=
  _setCurrentNode (getHighestNode neo) neo

/-- The method `Neo.prototype._initDiagnostic`: nothing for an interval `<= 0`; otherwise
the sampler every `diagnosticInterval` and, at verbose level 3, the leaderboard
every 10000. -/
def _initDiagnostic (neo : Neo) : Neo :=
  if neo.options.diagnosticInterval ≤ 0 then neo
  else
    let neo1 := { neo with intervals := neo.intervals ++
      [{ task := Task.diagnoseRandomNode, period := neo.options.diagnosticInterval }] }
    if neo1.options.verboseLevel ≥ 3 then
      { neo1 with intervals := neo1.intervals ++ [{ task := Task.leaderboard, period := 10000 }] }
    else neo1

/-- The method `Neo.prototype._initLocalNode`: the guard reads `this.localNodeEnabled`, a
property of the client that nothing assigns (the option lives in
`this.options`), so the method always returns at the guard. -/
def _initLocalNode (neo : Neo) : Neo :=
  neo

/-- The constructor `new Neo(network, options)`, with `nodes` the copy of
`options.enum.nodes[network]` (the enum is not among the sources). -/
def newNeo (nodes : List PoolNode) (options : Options) : Except JSVal Neo :=
  let neo0 : Neo :=
    { options := options, nodes := nodes, currentNode := none, rpc := none, intervals := [] }
  match setDefaultNode neo0 with
  | Except.error e => Except.error e
  | Except.ok neo1 => Except.ok (_initLocalNode (_initDiagnostic neo1))

/-! ### The random index

`Math.random()` returns an IEEE-754 double `r` with `0 <= r < 1`, and
`Math.random() * this.nodes.length` is the double product: the exact product
rounded to 53 significant bits, to nearest, ties to even.  The doubles in
`[0, 1)` are exactly the quotients `m / 2^j` with `m < 2^53` and
`53 <= j <= 1074`, so the product is kept as a natural numerator over `2^j`.
The length of a JavaScript array is below `2^32`, hence itself a double, and the
product is below the length: nothing overflows. -/

/-- A value of `Math.random()`: the double `m / 2^j`, with `0 <= m / 2^j < 1`. -/
structure UnitDraw where
  m : Nat
  j : Nat
  m_lt : m < 2 ^ 53
  j_ge : 53 ≤ j
  j_le : j ≤ 1074

/-- The number that a draw stands for. -/
def UnitDraw.r (draw : UnitDraw) : ℚ :=
  (draw.m : ℚ) / (2 : ℚ) ^ draw.j

/-- The count of binary digits of `n`, by halving at most `fuel` times. -/
def bitsFuel : Nat → Nat → Nat
  | 0, _ => 0
  | fuel + 1, n => if n = 0 then 0 else bitsFuel fuel (n / 2) + 1

/-- The count of binary digits of `n` (0 for 0). -/
def bitLength (n : Nat) : Nat :=
  bitsFuel n n

/-- The quotient `N / 2^s` rounded to the nearest integer, a tie going to the
even neighbour. -/
def roundHalfEven (N s : Nat) : Nat :=
  let q := N / 2 ^ s
  let rest := N % 2 ^ s
  if 2 * rest < 2 ^ s then q
  else if 2 ^ s < 2 * rest then q + 1
  else if q % 2 = 0 then q else q + 1

/-- The numerator over `2^j` of the double `Math.random() * length`: the exact
numerator `m * length` when it has at most 53 binary digits, and otherwise that
numerator rounded to its 53 leading digits. -/
def productNumerator (draw : UnitDraw) (length : Nat) : Nat :=
  let N := draw.m * length
  if N < 2 ^ 53 then N
  else
    let s := bitLength N - 53
    roundHalfEven N s * 2 ^ s

/-- The double `Math.random() * this.nodes.length`. -/
def doubleProduct (draw : UnitDraw) (length : Nat) : ℚ :=
  (productNumerator draw length : ℚ) / ((2 ^ draw.j : Nat) : ℚ)

/-- The index `Math.floor(Math.random() * this.nodes.length)`: the floor of a
non-negative quotient of naturals is their natural quotient. -/
def targetIndex (draw : UnitDraw) (length : Nat) : Nat :=
  productNumerator draw length / 2 ^ draw.j

/-- How the `getBlockCount` promise of a diagnostic sample settles: resolved with
the height `res` while the clock went from `startTime` to `endTime`, or rejected. -/
inductive SampleOutcome where
  | resolved (res : Int) (startTime endTime : Int) : SampleOutcome
  | rejected (err : JSVal) : SampleOutcome

/-- The synchronous part of `_diagnoseRandomNode`: pick the target and
initialise it.  The target reference is returned for the callbacks. -/
def diagnoseStart (draw : UnitDraw) (neo : Neo) : Except JSVal (Neo × Nat) :=
  let i := targetIndex draw neo.nodes.length
  let targetNode : Option Nat := if i < neo.nodes.length then some i else none
  match _initNode targetNode neo with
  | Except.error e => Except.error e
  | Except.ok neo1 => Except.ok (neo1, i)

/-- The `.then` callback of `_diagnoseRandomNode` on the target object:
`active = true`, `blockHeight = res`, `latency = (new Date()) - startTime`. -/
def sampleResolved (res startTime endTime : Int) (targetNode : PoolNode) : PoolNode :=
  let latency := endTime - startTime
  let n1 := { targetNode with active := some true }
  let n2 := { n1 with blockHeight := some res }
  { n2 with latency := some latency }

/-- The `.catch` callback of `_diagnoseRandomNode` on the target object:
`active = false`. -/
def sampleRejected (targetNode : PoolNode) : PoolNode :=
  { targetNode with active := some false }

/-- The log line of the `.catch` callback of `_diagnoseRandomNode`: at verbose
level 3 it reads `err.message`, which throws on `undefined` and `null`.  The
value thrown, if any. -/
def catchLog (options : Options) (err : JSVal) : Option JSVal :=
  if options.verboseLevel ≥ 3 then
    match err.getProp "message" with
    | Except.error e => some e
    | Except.ok _ => none
  else none

/-- The settling of a diagnostic sample: the callback that runs, on the object
behind the target reference.  The result is the state after the write, and the
value the callback throws after it, if it throws: that value rejects the promise
at the end of the `.then(..).catch(..)` chain, which nothing handles. -/
def diagnoseSettle (targetNode : Nat) (outcome : SampleOutcome) (neo : Neo) :
    Neo × Option JSVal :=
  match outcome with
  | SampleOutcome.resolved res startTime endTime =>
    ({ neo with nodes := neo.nodes.modify (sampleResolved res startTime endTime) targetNode },
      none)
  | SampleOutcome.rejected err =>
    ({ neo with nodes := neo.nodes.modify sampleRejected targetNode },
      catchLog neo.options err)

/-- One diagnostic sample from the draw to the settling of its promise: a throw
of `_diagnoseRandomNode` itself (`Except.error`), or the state afterwards with
the rejection that was left unhandled, if any. -/
def diagnoseRun (draw : UnitDraw) (outcome : SampleOutcome) (neo : Neo) :
    Except JSVal (Neo × Option JSVal) :=
  match diagnoseStart draw neo with
  | Except.error e => Except.error e
  | Except.ok (neo1, targetNode) => Except.ok (diagnoseSettle targetNode outcome neo1)

/-- The method `Neo.prototype._diagnoseRandomNode` as a step of the pool: the
state once the sample has settled.  `Except.error` is a throw of the method
itself; a throw inside a settling callback comes after the write and reaches no
caller, and `diagnoseRun` reports it. -/
def _diagnoseRandomNode (draw : UnitDraw) (outcome : SampleOutcome) (neo : Neo) :
    Except JSVal Neo :=
  match diagnoseStart draw neo with
  | Except.error e => Except.error e
  | Except.ok (neo1, targetNode) => Except.ok (diagnoseSettle targetNode outcome neo1).1

/-- One step in the life of a client, as seen by the pool. -/
inductive PoolStep where
  | setDefaultNode : PoolStep
  | setFastestNode : PoolStep
  | setHighestNode : PoolStep
  | diagnose (draw : UnitDraw) (outcome : SampleOutcome) : PoolStep

/-- Run one step. -/
def PoolStep.run : PoolStep → Neo → Except JSVal Neo
  | PoolStep.setDefaultNode, neo => NeoJs.setDefaultNode neo
  | PoolStep.setFastestNode, neo => NeoJs.setFastestNode neo
  | PoolStep.setHighestNode, neo => NeoJs.setHighestNode neo
  | PoolStep.diagnose draw outcome, neo => _diagnoseRandomNode draw outcome neo

/-- Run a sequence of steps, first to last, stopping at the first throw. -/
def runSteps : List PoolStep → Neo → Except JSVal Neo
  | [], neo => Except.ok neo
  | s :: rest, neo =>
    match s.run neo with
    | Except.error e => Except.error e
    | Except.ok neo1 => runSteps rest neo1

/-! ### The event bindings of the constructor

The constructor registers three listeners on `this.options.eventEmitter`.  An
event `e` is kept as its `url`, a string (the url of the `Rpc` handle that
emitted it). -/

/-- The call `_.find(this.nodes, { url: e.url })` of lodash (an external
library): a reference to the first node, in pool order, whose `url` is the
string `e.url`, and `undefined` when there is none. -/
def findByUrl (nodes : List PoolNode) (url : String) : Option Nat :=
  nodes.findIdx? (fun node => decide (node.url = some url))

/-- The statements `node.pendingRequests += 1` (`d = 1`) and
`node.pendingRequests -= 1` (`d = -1`) on the object. -/
def bumpPendingRequests (d : Int) (node : PoolNode) : PoolNode :=
  { node with pendingRequests := node.pendingRequests.plus d }

/-- The listener of `rpc:call`: find the node, then `node.pendingRequests += 1`.
Reading `pendingRequests` of `undefined` throws. -/
def onRpcCall (url : String) (neo : Neo) : Except JSVal Neo :=
  match findByUrl neo.nodes url with
  | none => Except.error JSVal.typeError
  | some node => Except.ok { neo with nodes := neo.nodes.modify (bumpPendingRequests 1) node }

/-- The listener of `rpc:call:response`: find the node, then
`node.pendingRequests -= 1`. -/
def onRpcCallResponse (url : String) (neo : Neo) : Except JSVal Neo :=
  match findByUrl neo.nodes url with
  | none => Except.error JSVal.typeError
  | some node => Except.ok { neo with nodes := neo.nodes.modify (bumpPendingRequests (-1)) node }

/-- The listener of `rpc:call:error`: find the node, then
`node.pendingRequests -= 1`. -/
def onRpcCallError (url : String) (neo : Neo) : Except JSVal Neo :=
  match findByUrl neo.nodes url with
  | none => Except.error JSVal.typeError
  | some node => Except.ok { neo with nodes := neo.nodes.modify (bumpPendingRequests (-1)) node }

/-- An event on `this.options.eventEmitter` as this client hears it. -/
def poolEmit (event : String) (url : String) (neo : Neo) : Except JSVal Neo :=
  if event = "rpc:call" then onRpcCall url neo
  else if event = "rpc:call:response" then onRpcCallResponse url neo
  else if event = "rpc:call:error" then onRpcCallError url neo
  else Except.ok neo

/-! ### The periodic tasks -/

/-- The callback of a periodic task at one tick: the sampler runs
`_diagnoseRandomNode` once; the leaderboard reads the fastest and the highest
node to print them, which throws when one of them is `undefined`. -/
def Task.run : Task → UnitDraw → SampleOutcome → Neo → Except JSVal Neo
  | Task.diagnoseRandomNode, draw, outcome, neo => _diagnoseRandomNode draw outcome neo
  | Task.leaderboard, _, _, neo =>
    match getFastestNode neo, getHighestNode neo with
    | some _, some _ => Except.ok neo
    | _, _ => Except.error JSVal.typeError

/-- The firing of timer number `k`: the callback of the `k`-th registration runs;
without such a registration nothing runs. -/
def timerFires (k : Nat) (draw : UnitDraw) (outcome : SampleOutcome) (neo : Neo) :
    Except JSVal Neo :=
  match neo.intervals[k]? with
  | none => Except.ok neo
  | some t => t.task.run draw outcome neo

/-- A sequence of timer firings, first to last, stopping at the first throw. -/
def runTimers : List (Nat × UnitDraw × SampleOutcome) → Neo → Except JSVal Neo
  | [], neo => Except.ok neo
  | (k, draw, outcome) :: rest, neo =>
    match timerFires k draw outcome neo with
    | Except.error e => Except.error e
    | Except.ok neo1 => runTimers rest neo1

/-! ## Notions used to state the properties -/

/-- A call-end event whose payload carries a truthy `error`. -/
def QueryEvent.hasError : QueryEvent → Bool
  | QueryEvent.init _ => false
  | QueryEvent.success _ p => p.error.truthy
  | QueryEvent.failed _ p => p.error.truthy

/-- Number of call-end events that carry a truthy `error`. -/
def countErrorEnds (events : List QueryEvent) : Nat :=
  (events.filter (fun e => e.hasError)).length

/-- The names of the events emitted in a trace, in order. -/
def emittedEvents : List Effect → List String
  | [] => []
  | Effect.emitted event _ :: rest => event :: emittedEvents rest
  | Effect.transport _ _ _ _ :: rest => emittedEvents rest

/-- The number of transport invocations in a trace. -/
def transportCalls : List Effect → Nat
  | [] => 0
  | Effect.emitted _ _ :: rest => transportCalls rest
  | Effect.transport _ _ _ _ :: rest => transportCalls rest + 1

/-- The values on which a property access throws: `undefined` and `null`. -/
def JSVal.isNullish : JSVal → Bool
  | JSVal.undefined => true
  | JSVal.null => true
  | _ => false

/-- The sampler registrations among the periodic tasks. -/
def samplerIntervals (neo : Neo) : List Interval :=
  neo.intervals.filter (fun t => decide (t.task = Task.diagnoseRandomNode))

/-- The health attributes of a node are all unknown. -/
def PoolNode.healthUnknown (node : PoolNode) : Bool :=
  node.active.isNone && node.latency.isNone && node.blockHeight.isNone

/-- The pool member at position `i` is active and its attribute `key` (its
`latency`, its `blockHeight`) is known and equal to `v`. -/
def ActiveWith (key : PoolNode → Option Int) (nodes : List PoolNode) (i : Nat) (v : Int) : Prop :=
  ∃ node, nodes[i]? = some node ∧ node.active = some true ∧ key node = some v

/-- What the loop of `baseExtremum` maintains over the elements seen so far.
Nothing is chosen while no element seen has a value; otherwise the chosen
element is one of those seen, it carries the recorded value, no element seen
beats it, and it beats every element seen at an earlier position than its own. -/
def ExtremumInv {α : Type} (f : α → Option Int) (cmp : Int → Int → Bool) (pos : α → Nat)
    (seen : List α) : Option (α × Int) → Prop
  | none => ∀ x ∈ seen, f x = none
  | some (r, c) => r ∈ seen ∧ f r = some c ∧
      ∀ x ∈ seen, ∀ k, f x = some k → cmp k c = false ∧ (pos x < pos r → cmp c k = true)

/-- A pool in working order: the node list is non-empty and `currentNode` refers
to one of its members. -/
def PoolOk (neo : Neo) : Prop :=
  neo.nodes ≠ [] ∧ ∃ i, neo.currentNode = some i ∧ i < neo.nodes.length

/-! ## Concrete inputs -/

/-- An error object as a transport rejects with. -/
def connectionError : JSVal :=
  JSVal.obj [("message", JSVal.str "connect ECONNREFUSED")]

/-- A transport response `{ result: r }`. -/
def response (r : JSVal) : JSVal :=
  JSVal.obj [("result", r)]

/-- One call that fails: `query:init`, then `query:failed` with the error. -/
def failedCallEvents : List QueryEvent :=
  [QueryEvent.init (initPayload "getblockcount" [] 0),
   QueryEvent.failed 5 (failedPayload "getblockcount" connectionError)]

/-- The `Node` after one height query answered 100 in 500 ms. -/
def syncedNode : Node :=
  (getBlockCount neoRpc (Settled.resolved (response (JSVal.num 100))) 1000 1500 1501
    (newNode "http://seed1.neo.org:10332")).node

/-- An enum entry as copied into `this.nodes`, with the health attributes given. -/
def poolNode (host : String) (active : Option Bool) (latency blockHeight : Option Int) :
    PoolNode :=
  { scheme := "http", host := host, port := "10332", url := none, rpc := none,
    pendingRequests := JSNumber.undefined, active := active, latency := latency, blockHeight := blockHeight }

/-- A client over the given nodes, before any node is current. -/
def poolOf (nodes : List PoolNode) : Neo :=
  { options := Defaults, nodes := nodes, currentNode := none, rpc := none, intervals := [] }

/-- Latencies `[50, 20, unknown]` with activity `[true, true, false]`. -/
def latencyPool : Neo :=
  poolOf [poolNode "seed1" (some true) (some 50) (some 100),
          poolNode "seed2" (some true) (some 20) (some 99),
          poolNode "seed3" (some false) none none]

/-- No node active, the later nodes with smaller stale latencies than the first. -/
def inactivePool : Neo :=
  poolOf [poolNode "seed1" (some false) (some 50) (some 100),
          poolNode "seed2" (some false) (some 20) (some 120),
          poolNode "seed3" none (some 5) none]

/-- Heights `[90, 100, 100]`, every node active. -/
def heightPool : Neo :=
  poolOf [poolNode "seed1" (some true) (some 30) (some 90),
          poolNode "seed2" (some true) (some 40) (some 100),
          poolNode "seed3" (some true) (some 10) (some 100)]

/-- A version response `{ result: { useragent: s } }`. -/
def versionResponse (s : String) : JSVal :=
  response (JSVal.obj [("useragent", JSVal.str s)])

/-- The `Node` after one version query answered with the user agent
`/NEO:2.7.6/`. -/
def versionedNode : Node :=
  (getVersion neoRpc (Settled.resolved (versionResponse "/NEO:2.7.6/")) 1000 1500 1501
    (newNode "http://seed1.neo.org:10332")).node

/-- Two enum entries, the second of which brings its own `url`. -/
def byoNodes : List PoolNode :=
  [poolNode "seed1" none none none,
   { poolNode "seed2" none none none with url := some "http://seed2:10332" }]

/-- Three initialised nodes, the last two with the same url, with one, two and
five requests pending. -/
def twinPool : Neo :=
  poolOf [{ poolNode "seed0" none none none with
              url := some "http://seed0:10332", pendingRequests := JSNumber.int 1 },
          { poolNode "seed1" none none none with
              url := some "http://seed1:10332", pendingRequests := JSNumber.int 2 },
          { poolNode "seed1" none none none with
              url := some "http://seed1:10332", pendingRequests := JSNumber.int 5 }]

/-- The default options with the sampler every 1000 ms. -/
def sampledOptions : Options :=
  { Defaults with diagnosticInterval := 1000 }

/-- Three enum entries with nothing known about their health. -/
def freshNodes : List PoolNode :=
  [poolNode "seed1" none none none, poolNode "seed2" none none none,
   poolNode "seed3" none none none]

/-- The draw `Math.random() = 1/2`. -/
def halfDraw : UnitDraw :=
  { m := 2 ^ 52, j := 53, m_lt := by norm_num, j_ge := by norm_num, j_le := by norm_num }

/-- The double `2573485501354569 / 2^52` (about `4/7`), whose product with 7
rounds up to `4.0`. -/
def fourSevenths : UnitDraw :=
  { m := 5146971002709138, j := 53, m_lt := by norm_num, j_ge := by norm_num,
    j_le := by norm_num }

/-- The double `6004799503160661 / 2^53` (about `2/3`), whose product with 3
rounds up to `2.0`. -/
def twoThirds : UnitDraw :=
  { m := 6004799503160661, j := 53, m_lt := by norm_num, j_ge := by norm_num,
    j_le := by norm_num }

/-- The double `ceil(k * 2^53 / n) / 2^53`, the least multiple of `2^-53` that is
at least `k / n`, for an index `k` of an array of length `n`. -/
def drawFor (k n : Nat) (hk : k < n) (hn : n < 2 ^ 32) : UnitDraw :=
  { m := (k * 2 ^ 53 + (n - 1)) / n
    j := 53
    m_lt := by
      have hpos : 0 < n := by omega
      rw [Nat.div_lt_iff_lt_mul hpos]
      have h1 : (k + 1) * 2 ^ 53 ≤ n * 2 ^ 53 := Nat.mul_le_mul_right _ hk
      have h2 : 2 ^ 53 * n = n * 2 ^ 53 := Nat.mul_comm _ _
      have h3 : (k + 1) * 2 ^ 53 = k * 2 ^ 53 + 2 ^ 53 := by ring
      have h4 : (2 : Nat) ^ 32 < 2 ^ 53 := by norm_num
      omega
    j_ge := Nat.le_refl 53
    j_le := by norm_num }

/-- The pool with latencies `[50, 20, unknown]` at verbose level 3. -/
def verbosePool : Neo :=
  { latencyPool with options := { Defaults with verboseLevel := 3 } }

/-- A run of the pool: a sample that succeeds, two selections, a sample that
fails, the default selection. -/
def sampleSteps : List PoolStep :=
  [PoolStep.diagnose halfDraw (SampleOutcome.resolved 100 1000 1040),
   PoolStep.setFastestNode,
   PoolStep.setHighestNode,
   PoolStep.diagnose halfDraw (SampleOutcome.rejected connectionError),
   PoolStep.setDefaultNode]

/-! ## The endpoint health tracker: the pending-request counter -/

/-- The counter after `stopBenchmark`: two less with a truthy `error`, one less
without. -/
theorem pendingRequests_stopBenchmark (now : Int) (payload : Payload) (n : Node) :
    (stopBenchmark now payload n).pendingRequests =
      n.pendingRequests - (if payload.error.truthy then 2 else 1) := by
  unfold stopBenchmark decreasePendingRequest
  by_cases h : payload.error.truthy = true
  · simp [h]; ring
  · simp [h]
    split_ifs <;> rfl

/-- The counter after one event. -/
theorem pendingRequests_deliver (n : Node) (e : QueryEvent) :
    (deliver n e).pendingRequests =
      n.pendingRequests + (countStarts [e] : Int) - (countEnds [e] : Int)
        - (countErrorEnds [e] : Int) := by
  cases e with
  | init p =>
    simp [deliver, emit, queryInitHandler, startBenchmark, increasePendingRequest, countStarts,
      countEnds, countErrorEnds, QueryEvent.isStart, QueryEvent.hasError]
  | success now p =>
    by_cases h : p.error.truthy = true
    · simp [deliver, emit, querySuccessHandler, pendingRequests_stopBenchmark, countStarts,
        countEnds, countErrorEnds, QueryEvent.isStart, QueryEvent.hasError, h]
      ring
    · simp [deliver, emit, querySuccessHandler, pendingRequests_stopBenchmark, countStarts,
        countEnds, countErrorEnds, QueryEvent.isStart, QueryEvent.hasError, h]
  | failed now p =>
    by_cases h : p.error.truthy = true
    · simp [deliver, emit, queryFailedHandler, pendingRequests_stopBenchmark, countStarts,
        countEnds, countErrorEnds, QueryEvent.isStart, QueryEvent.hasError, h]
      ring
    · simp [deliver, emit, queryFailedHandler, pendingRequests_stopBenchmark, countStarts,
        countEnds, countErrorEnds, QueryEvent.isStart, QueryEvent.hasError, h]

/-- The counter after any sequence of events: starts minus ends, minus one more
for every end that carries an error. -/
theorem pendingRequests_deliverAll (events : List QueryEvent) (n : Node) :
    (deliverAll n events).pendingRequests =
      n.pendingRequests + (countStarts events : Int) - (countEnds events : Int)
        - (countErrorEnds events : Int) := by
  induction events generalizing n with
  | nil => simp [deliverAll, countStarts, countEnds, countErrorEnds]
  | cons e rest ih =>
    have h := ih (deliver n e)
    have h1 := pendingRequests_deliver n e
    simp only [deliverAll, List.foldl_cons] at h ⊢
    rw [h, h1]
    simp only [countStarts, countEnds, countErrorEnds, List.filter_cons, List.filter_nil]
    split_ifs <;> simp <;> ring

/-- C1, evaluated on the code.  One call that fails (a `query:init`, then its
`query:failed` carrying the error) is a well-matched sequence with one start and
one end, and it leaves `pendingRequests` of a fresh `Node` at `-1`: not at
starts minus ends, which is `0`, and negative. -/
theorem pendingRequests_negative_after_failed_call :
    wellMatched failedCallEvents = true ∧
    countStarts failedCallEvents = 1 ∧ countEnds failedCallEvents = 1 ∧
    (deliverAll (newNode "http://seed1.neo.org:10332") failedCallEvents).pendingRequests = -1 :=
  ⟨by decide, by decide, by decide, by decide⟩

/-! ## The endpoint health tracker: metadata after a call -/

/-- The fields after `stopBenchmark` on a payload without a truthy `error`. -/
theorem stopBenchmark_success_fields (now : Int) (payload : Payload) (n : Node)
    (h : payload.error.truthy = false) :
    (stopBenchmark now payload n).isActive = some true ∧
    (stopBenchmark now payload n).latency
      = (if payload.latency.truthy then payload.latency else n.latency) ∧
    (stopBenchmark now payload n).blockHeight
      = (if payload.blockHeight.truthy then payload.blockHeight else n.blockHeight) ∧
    (stopBenchmark now payload n).userAgent
      = (if payload.userAgent.truthy then payload.userAgent else n.userAgent) := by
  unfold stopBenchmark decreasePendingRequest
  simp only [h]
  refine ⟨?_, ?_, ?_, ?_⟩ <;> split_ifs <;> simp_all

/-- The payload that the `.then` callback builds when it does not throw. -/
theorem thenCallback_payload (C : RpcMethods) (method : String) (t0 t1 : Int) (res : JSVal)
    (payload : Payload) (result : JSVal)
    (hthen : thenCallback C method t0 t1 res = Except.ok (payload, result)) :
    payload.error = JSVal.undefined ∧ payload.latency = JSVal.num ((t1 - t0 : Int) : ℚ) ∧
    payload.blockHeight = (if method = C.getblockcount then result else JSVal.undefined) ∧
    res.getProp "result" = Except.ok result := by
  unfold thenCallback at hthen
  cases hres : res.getProp "result" with
  | error e => rw [hres] at hthen; cases hthen
  | ok r =>
    rw [hres] at hthen
    simp only [] at hthen
    by_cases hv : method = C.getversion
    · rw [if_pos hv] at hthen
      cases hua : r.getProp "useragent" with
      | error e => rw [hua] at hthen; cases hthen
      | ok ua =>
        rw [hua] at hthen
        simp only [Except.ok.injEq, Prod.mk.injEq] at hthen
        obtain ⟨hp, hr⟩ := hthen
        subst hp hr
        exact ⟨rfl, rfl, rfl, rfl⟩
    · rw [if_neg hv] at hthen
      simp only [Except.ok.injEq, Prod.mk.injEq] at hthen
      obtain ⟨hp, hr⟩ := hthen
      subst hp hr
      exact ⟨rfl, rfl, rfl, rfl⟩

/-- A query whose `.then` callback does not throw: the `Node` afterwards and the
value the promise resolves with. -/
theorem query_success_node (C : RpcMethods) (method : String) (params : List JSVal) (id : ℚ)
    (res : JSVal) (t0 t1 now : Int) (n : Node) (payload : Payload) (result : JSVal)
    (hthen : thenCallback C method t0 t1 res = Except.ok (payload, result)) :
    (query C method params id (Settled.resolved res) t0 t1 now n).node
      = stopBenchmark now payload (increasePendingRequest n) ∧
    (query C method params id (Settled.resolved res) t0 t1 now n).result = Except.ok result := by
  simp [query, hthen, emit, querySuccessHandler, queryInitHandler, startBenchmark]

/-- What does hold of the height: a height query answered with a number other
than `0` records it and marks the node active. -/
theorem blockHeight_after_height_query (C : RpcMethods) (h : ℚ) (hh : h ≠ 0) (t0 t1 now : Int)
    (n : Node) :
    (getBlockCount C (Settled.resolved (response (JSVal.num h))) t0 t1 now n).node.blockHeight
      = JSVal.num h ∧
    (getBlockCount C (Settled.resolved (response (JSVal.num h))) t0 t1 now n).node.isActive
      = some true := by
  have hs := fun p (hp : p.error.truthy = false) =>
    stopBenchmark_success_fields now p
      (emit "query:init" t0 (initPayload C.getblockcount [] DEFAULT_ID) n) hp
  by_cases hv : C.getblockcount = C.getversion
  · simp [getBlockCount, query, thenCallback, response, JSVal.getProp, JSVal.lookup, hv, emit,
      querySuccessHandler] at hs ⊢
    have := hs (successPayload C.getversion (JSVal.num ((t1 - t0 : Int) : ℚ)) (JSVal.num h)
      JSVal.undefined) rfl
    simp [successPayload, JSVal.truthy, hh] at this
    simp [successPayload]
    exact ⟨this.2.2.1, this.1⟩
  · simp [getBlockCount, query, thenCallback, response, JSVal.getProp, JSVal.lookup, hv, emit,
      querySuccessHandler] at hs ⊢
    have := hs (successPayload C.getblockcount (JSVal.num ((t1 - t0 : Int) : ℚ)) (JSVal.num h)
      JSVal.undefined) rfl
    simp [successPayload, JSVal.truthy, hh] at this
    simp [successPayload]
    exact ⟨this.2.2.1, this.1⟩

/-- What does hold of the latency: a successful query whose two clock readings
differ records their difference and marks the node active. -/
theorem latency_after_success (C : RpcMethods) (method : String) (params : List JSVal) (id : ℚ)
    (res : JSVal) (t0 t1 now : Int) (n : Node) (payload : Payload) (result : JSVal)
    (hthen : thenCallback C method t0 t1 res = Except.ok (payload, result)) (hL : t1 ≠ t0) :
    (query C method params id (Settled.resolved res) t0 t1 now n).node.latency
      = JSVal.num ((t1 - t0 : Int) : ℚ) ∧
    (query C method params id (Settled.resolved res) t0 t1 now n).node.isActive = some true := by
  obtain ⟨he, hl, _, _⟩ := thenCallback_payload C method t0 t1 res payload result hthen
  have herr : payload.error.truthy = false := by rw [he]; rfl
  have hs := stopBenchmark_success_fields now payload (increasePendingRequest n) herr
  rw [(query_success_node C method params id res t0 t1 now n payload result hthen).1]
  refine ⟨?_, hs.1⟩
  rw [hs.2.1, hl]
  have hne : ((t1 - t0 : Int) : ℚ) ≠ 0 := by
    have : t1 - t0 ≠ 0 := sub_ne_zero.mpr hL
    exact_mod_cast this
  rw [if_pos]
  simp only [JSVal.truthy]
  exact decide_eq_true hne

/-- C2, evaluated on the code.  On a `Node` that has recorded height 100, a
height query (`getblockcount`) that succeeds with result `0` resolves with `0`
and marks the node active, and `blockHeight` is still the stale `100`, not `0`:
the guard `if (payload.blockHeight)` takes the result `0` for an absent one. -/
theorem blockHeight_stale_after_height_zero :
    (getBlockCount neoRpc (Settled.resolved (response (JSVal.num 0))) 2000 2040 2041
        syncedNode).result = Except.ok (JSVal.num 0) ∧
    (getBlockCount neoRpc (Settled.resolved (response (JSVal.num 0))) 2000 2040 2041
        syncedNode).node.isActive = some true ∧
    (getBlockCount neoRpc (Settled.resolved (response (JSVal.num 0))) 2000 2040 2041
        syncedNode).node.blockHeight = JSVal.num 100 ∧
    JSVal.num 100 ≠ JSVal.num 0 :=
  ⟨rfl, rfl, rfl, by simp⟩

/-- C3.  Handling `query:failed` with a payload whose `error` is truthy (every
error object is) sets `isActive` to false and leaves `latency`, `blockHeight`,
`userAgent` and `endpoint` as they were, whatever the state of the `Node`. -/
theorem failed_query_frame (now : Int) (payload : Payload) (n : Node)
    (h : payload.error.truthy = true) :
    (emit "query:failed" now payload n).isActive = some false ∧
    (emit "query:failed" now payload n).latency = n.latency ∧
    (emit "query:failed" now payload n).blockHeight = n.blockHeight ∧
    (emit "query:failed" now payload n).userAgent = n.userAgent ∧
    (emit "query:failed" now payload n).endpoint = n.endpoint := by
  simp [emit, queryFailedHandler, stopBenchmark, decreasePendingRequest, h]

/-- C3 at a concrete input: a connection error reaches a `Node` that has
recorded a height and a latency. -/
theorem failed_query_frame_witness :
    (failedPayload "getblockcount" connectionError).error.truthy = true ∧
    (emit "query:failed" 2000 (failedPayload "getblockcount" connectionError) syncedNode).isActive
      = some false ∧
    (emit "query:failed" 2000 (failedPayload "getblockcount" connectionError) syncedNode).latency
      = syncedNode.latency ∧
    (emit "query:failed" 2000 (failedPayload "getblockcount" connectionError)
      syncedNode).blockHeight = syncedNode.blockHeight ∧
    (emit "query:failed" 2000 (failedPayload "getblockcount" connectionError)
      syncedNode).userAgent = syncedNode.userAgent ∧
    (emit "query:failed" 2000 (failedPayload "getblockcount" connectionError)
      syncedNode).endpoint = syncedNode.endpoint :=
  ⟨rfl, failed_query_frame 2000 (failedPayload "getblockcount" connectionError) syncedNode rfl⟩

/-- C4, evaluated on the code.  On a `Node` that has recorded latency 500, a
query that succeeds with both clock readings equal (elapsed time `L = 0`)
resolves and marks the node active, and `latency` is still the stale `500`, not
`0`: the guard `if (payload.latency)` takes the latency `0` for an absent one. -/
theorem latency_stale_after_zero_elapsed :
    (getBlockCount neoRpc (Settled.resolved (response (JSVal.num 101))) 2000 2000 2000
        syncedNode).result = Except.ok (JSVal.num 101) ∧
    (getBlockCount neoRpc (Settled.resolved (response (JSVal.num 101))) 2000 2000 2000
        syncedNode).node.isActive = some true ∧
    (getBlockCount neoRpc (Settled.resolved (response (JSVal.num 101))) 2000 2000 2000
        syncedNode).node.latency = JSVal.num 500 ∧
    JSVal.num 500 ≠ JSVal.num (((2000 : Int) - 2000 : Int) : ℚ) :=
  ⟨rfl, rfl, rfl, by simp⟩

/-- The validator rejects every height that is not a natural number. -/
theorem validateHeight_rejects (height : ℚ) (h : ¬ ∃ k : Nat, height = (k : ℚ)) :
    validateHeight height = Except.error validationError := by
  unfold validateHeight
  rw [if_neg]
  rintro ⟨h0, h1⟩
  apply h
  have hden : height.den = 1 := by
    simpa [Rat.isInt] using h1
  have hnum : ((height.num : ℚ)) = height := Rat.coe_int_num_of_den_eq_one hden
  have hn0 : 0 ≤ height.num := Rat.num_nonneg.mpr h0
  refine ⟨height.num.toNat, ?_⟩
  rw [← hnum]
  have : ((height.num.toNat : Int)) = height.num := Int.toNat_of_nonneg hn0
  exact_mod_cast this.symm

/-- C8.  For every height that is not a non-negative integer, `getBlock` fails
with the validation error and has no effect at all: the trace is empty (no
`query:init` emitted, the transport not invoked) and the `Node` is unchanged,
`pendingRequests` included. -/
theorem getBlock_invalid_height (C : RpcMethods) (height : ℚ) (isVerbose : Bool)
    (settled : Settled) (t0 t1 now : Int) (n : Node)
    (h : ¬ ∃ k : Nat, height = (k : ℚ)) :
    (getBlock C height isVerbose settled t0 t1 now n).result = Except.error validationError ∧
    (getBlock C height isVerbose settled t0 t1 now n).trace = [] ∧
    (getBlock C height isVerbose settled t0 t1 now n).node = n := by
  simp [getBlock, validateHeight_rejects height h]

/-- C8 at the height `-1`. -/
theorem getBlock_invalid_height_witness :
    (¬ ∃ k : Nat, (-1 : ℚ) = (k : ℚ)) ∧
    (getBlock neoRpc (-1) true (Settled.resolved (response JSVal.null)) 0 1 2 syncedNode).result
      = Except.error validationError ∧
    (getBlock neoRpc (-1) true (Settled.resolved (response JSVal.null)) 0 1 2 syncedNode).trace
      = [] ∧
    (getBlock neoRpc (-1) true (Settled.resolved (response JSVal.null)) 0 1 2 syncedNode).node
      = syncedNode :=
  have hneg : ¬ ∃ k : Nat, (-1 : ℚ) = (k : ℚ) := by
    rintro ⟨k, hk⟩
    have : (0 : ℚ) ≤ (k : ℚ) := Nat.cast_nonneg k
    linarith
  ⟨hneg, getBlock_invalid_height neoRpc (-1) true _ 0 1 2 syncedNode hneg⟩

/-! ## The node pool: selection -/

/-- The loop of `baseExtremum` keeps `ExtremumInv`, for a comparator that is a
strict weak order and a list whose positions increase. -/
theorem baseExtremum_inv {α : Type} (f : α → Option Int) (cmp : Int → Int → Bool) (pos : α → Nat)
    (hirr : ∀ a, cmp a a = false)
    (htrans : ∀ a b c, cmp a b = true → cmp b c = true → cmp a c = true)
    (hcot : ∀ a b c, cmp a b = true → cmp a c = true ∨ cmp c b = true)
    (rest : List α) : ∀ (seen : List α) (acc : Option (α × Int)),
      (seen ++ rest).Pairwise (fun a b => pos a < pos b) →
      ExtremumInv f cmp pos seen acc →
      ExtremumInv f cmp pos (seen ++ rest) (baseExtremum f cmp rest acc) := by
  induction rest with
  | nil => intro seen acc _ h; simpa [baseExtremum] using h
  | cons value rest ih =>
    intro seen acc hs h
    have hs' : ((seen ++ [value]) ++ rest).Pairwise (fun a b => pos a < pos b) := by
      simpa using hs
    have hlt : ∀ x ∈ seen, pos x < pos value := by
      intro x hx
      have := List.pairwise_append.mp hs
      exact this.2.2 x hx value (List.mem_cons_self _ _)
    have key : ∀ acc1, ExtremumInv f cmp pos (seen ++ [value]) acc1 →
        ExtremumInv f cmp pos (seen ++ value :: rest) (baseExtremum f cmp rest acc1) := by
      intro acc1 h1
      have := ih (seen ++ [value]) acc1 hs' h1
      simpa using this
    cases hv : f value with
    | none =>
      simp only [baseExtremum, hv]
      apply key
      cases acc with
      | none =>
        intro x hx
        rcases List.mem_append.mp hx with hx | hx
        · exact h x hx
        · simp at hx; rw [hx]; exact hv
      | some rc =>
        obtain ⟨r, c⟩ := rc
        obtain ⟨hr, hfr, hall⟩ := h
        refine ⟨List.mem_append_left _ hr, hfr, ?_⟩
        intro x hx k hk
        rcases List.mem_append.mp hx with hx | hx
        · exact hall x hx k hk
        · simp at hx; rw [hx, hv] at hk; cases hk
    | some cur =>
      cases acc with
      | none =>
        simp only [baseExtremum, hv]
        apply key
        refine ⟨by simp, hv, ?_⟩
        intro x hx k hk
        rcases List.mem_append.mp hx with hx | hx
        · rw [h x hx] at hk; cases hk
        · simp at hx
          subst hx
          rw [hv] at hk
          cases hk
          exact ⟨hirr _, fun hlt => absurd hlt (lt_irrefl _)⟩
      | some rc =>
        obtain ⟨r, c⟩ := rc
        obtain ⟨hr, hfr, hall⟩ := h
        simp only [baseExtremum, hv]
        by_cases hc : cmp cur c = true
        · rw [if_pos hc]
          apply key
          refine ⟨by simp, hv, ?_⟩
          intro x hx k hk
          rcases List.mem_append.mp hx with hx | hx
          · obtain ⟨h1, _⟩ := hall x hx k hk
            constructor
            · by_contra hne
              have hkc : cmp k cur = true := by simpa using hne
              have := htrans _ _ _ hkc hc
              rw [h1] at this; cases this
            · intro _
              rcases hcot _ _ k hc with h2 | h2
              · exact h2
              · rw [h1] at h2; cases h2
          · simp at hx
            subst hx
            rw [hv] at hk
            cases hk
            exact ⟨hirr _, fun hlt => absurd hlt (lt_irrefl _)⟩
        · rw [if_neg hc]
          apply key
          refine ⟨List.mem_append_left _ hr, hfr, ?_⟩
          intro x hx k hk
          rcases List.mem_append.mp hx with hx | hx
          · exact hall x hx k hk
          · simp at hx
            subst hx
            rw [hv] at hk
            cases hk
            refine ⟨by simpa using hc, fun hlt2 => ?_⟩
            exact absurd (hlt r hr) (by omega)

/-- Truthiness of `active` is `active === true`. -/
theorem truthyBool_iff (b : Option Bool) : truthyBool b = true ↔ b = some true := by
  cases b with
  | none => simp [truthyBool]
  | some b => simp [truthyBool]

/-- Membership in the filtered list: a reference with its object, and active. -/
theorem mem_filterActive (nodes : List PoolNode) (p : Nat × PoolNode) :
    p ∈ filterActive nodes ↔ nodes[p.1]? = some p.2 ∧ p.2.active = some true := by
  simp [filterActive, List.mem_filter, List.mem_enum_iff_getElem?, truthyBool_iff]

/-- The filtered list keeps pool order. -/
theorem filterActive_pairwise (nodes : List PoolNode) :
    (filterActive nodes).Pairwise (fun a b => a.1 < b.1) := by
  unfold filterActive
  apply List.Pairwise.filter
  have h : (nodes.enum.map Prod.fst).Pairwise (fun a b => a < b) := by
    rw [List.enum_map_fst]
    exact List.pairwise_lt_range _
  exact (List.pairwise_map.mp h)

/-- With no node active the filtered list is empty. -/
theorem filterActive_eq_nil (nodes : List PoolNode)
    (h : ∀ node ∈ nodes, node.active ≠ some true) : filterActive nodes = [] := by
  rw [List.eq_nil_iff_forall_not_mem]
  intro p hp
  rw [mem_filterActive] at hp
  exact h p.2 (List.mem_iff_getElem?.mpr ⟨p.1, hp.1⟩) hp.2

/-- What `baseExtremum` returns on the active nodes: nothing when no active node
has a value, otherwise an active node whose value none beats and which beats
every active node before it. -/
theorem baseExtremum_filterActive (key : PoolNode → Option Int) (cmp : Int → Int → Bool)
    (hirr : ∀ a, cmp a a = false)
    (htrans : ∀ a b c, cmp a b = true → cmp b c = true → cmp a c = true)
    (hcot : ∀ a b c, cmp a b = true → cmp a c = true ∨ cmp c b = true)
    (nodes : List PoolNode) :
    (baseExtremum (fun p => key p.2) cmp (filterActive nodes) none = none ∧
        ∀ i v, ¬ ActiveWith key nodes i v) ∨
    (∃ p v, baseExtremum (fun p => key p.2) cmp (filterActive nodes) none = some (p, v) ∧
        ActiveWith key nodes p.1 v ∧
        ∀ j w, ActiveWith key nodes j w → cmp w v = false ∧ (j < p.1 → cmp v w = true)) := by
  have hinv := baseExtremum_inv (fun p : Nat × PoolNode => key p.2) cmp Prod.fst hirr htrans hcot
    (filterActive nodes) [] none (by simpa using filterActive_pairwise nodes)
    (by intro x hx; cases hx)
  simp only [List.nil_append] at hinv
  cases hres : baseExtremum (fun p : Nat × PoolNode => key p.2) cmp (filterActive nodes) none with
  | none =>
    left
    rw [hres] at hinv
    refine ⟨rfl, ?_⟩
    rintro i v ⟨node, hget, hact, hkey⟩
    have := hinv (i, node) ((mem_filterActive nodes (i, node)).mpr ⟨hget, hact⟩)
    simp only at this
    rw [hkey] at this
    cases this
  | some rc =>
    right
    obtain ⟨r, c⟩ := rc
    rw [hres] at hinv
    obtain ⟨hr, hfr, hall⟩ := hinv
    refine ⟨r, c, rfl, ?_, ?_⟩
    · rw [mem_filterActive] at hr
      exact ⟨r.2, hr.1, hr.2, hfr⟩
    · rintro j w ⟨node, hget, hact, hkey⟩
      exact hall (j, node) ((mem_filterActive nodes (j, node)).mpr ⟨hget, hact⟩) w hkey

/-- On a non-empty list `this.nodes[0]` is the member at position 0. -/
theorem firstNode_of_ne_nil (neo : Neo) (hne : neo.nodes ≠ []) : firstNode neo = some 0 := by
  unfold firstNode
  rw [if_pos (List.length_pos.mpr hne)]

/-- The result of `getFastestNode` on a non-empty pool. -/
theorem getFastestNode_char (neo : Neo) (hne : neo.nodes ≠ []) :
    ((∃ i l, ActiveWith PoolNode.latency neo.nodes i l) →
      ∃ i l, getFastestNode neo = some i ∧ ActiveWith PoolNode.latency neo.nodes i l ∧
        ∀ j lj, ActiveWith PoolNode.latency neo.nodes j lj → l ≤ lj ∧ (j < i → l < lj)) ∧
    ((¬ ∃ i l, ActiveWith PoolNode.latency neo.nodes i l) → getFastestNode neo = some 0) := by
  have h := baseExtremum_filterActive PoolNode.latency (fun value other => decide (value < other))
    (by intro a; simp) (by intro a b c; simp; omega) (by intro a b c; simp; omega) neo.nodes
  rcases h with ⟨hnone, hno⟩ | ⟨p, v, hsome, hcand, hall⟩
  · constructor
    · rintro ⟨i, l, hc⟩
      exact absurd hc (hno i l)
    · intro _
      simp only [getFastestNode, minBy, hnone, Option.map_none']
      exact firstNode_of_ne_nil neo hne
  · constructor
    · intro _
      refine ⟨p.1, v, ?_, hcand, ?_⟩
      · simp only [getFastestNode, minBy, hsome, Option.map_some']
      · intro j lj hj
        have := hall j lj hj
        simp at this
        exact ⟨this.1, this.2⟩
    · intro hno
      exact absurd ⟨p.1, v, hcand⟩ hno

/-- The result of `getHighestNode` on a non-empty pool. -/
theorem getHighestNode_char (neo : Neo) (hne : neo.nodes ≠ []) :
    ((∃ i h, ActiveWith PoolNode.blockHeight neo.nodes i h) →
      ∃ i h, getHighestNode neo = some i ∧ ActiveWith PoolNode.blockHeight neo.nodes i h ∧
        ∀ j hj, ActiveWith PoolNode.blockHeight neo.nodes j hj → hj ≤ h ∧ (j < i → hj < h)) ∧
    ((¬ ∃ i h, ActiveWith PoolNode.blockHeight neo.nodes i h) → getHighestNode neo = some 0) := by
  have h := baseExtremum_filterActive PoolNode.blockHeight
    (fun value other => decide (value > other))
    (by intro a; simp) (by intro a b c; simp; omega) (by intro a b c; simp; omega) neo.nodes
  rcases h with ⟨hnone, hno⟩ | ⟨p, v, hsome, hcand, hall⟩
  · constructor
    · rintro ⟨i, l, hc⟩
      exact absurd hc (hno i l)
    · intro _
      simp only [getHighestNode, maxBy, hnone, Option.map_none']
      exact firstNode_of_ne_nil neo hne
  · constructor
    · intro _
      refine ⟨p.1, v, ?_, hcand, ?_⟩
      · simp only [getHighestNode, maxBy, hsome, Option.map_some']
      · intro j lj hj
        have := hall j lj hj
        simp at this
        exact ⟨this.1, this.2⟩
    · intro hno
      exact absurd ⟨p.1, v, hcand⟩ hno

/-- C5.  On every non-empty pool: when some node is active with a known latency,
`getFastestNode` returns such a node, its latency is at most that of every such
node and strictly less than that of every such node before it in pool order (so
it is the first with the minimum); when no node is active with a known latency
it returns `nodes[0]`.  On latencies `[50, 20, unknown]` with activity
`[true, true, false]` it returns the second node, whose latency is 20. -/
theorem getFastestNode_spec :
    (∀ neo : Neo, neo.nodes ≠ [] →
      ((∃ i l, ActiveWith PoolNode.latency neo.nodes i l) →
        ∃ i l, getFastestNode neo = some i ∧ ActiveWith PoolNode.latency neo.nodes i l ∧
          ∀ j lj, ActiveWith PoolNode.latency neo.nodes j lj → l ≤ lj ∧ (j < i → l < lj)) ∧
      ((¬ ∃ i l, ActiveWith PoolNode.latency neo.nodes i l) → getFastestNode neo = some 0)) ∧
    (getFastestNode latencyPool = some 1 ∧
      latencyPool.nodes[1]?.bind PoolNode.latency = some 20) :=
  ⟨fun neo hne => getFastestNode_char neo hne, by decide, by decide⟩

/-- C5 at the pool with latencies `[50, 20, unknown]`. -/
theorem getFastestNode_spec_witness :
    latencyPool.nodes ≠ [] ∧
    ((∃ i l, ActiveWith PoolNode.latency latencyPool.nodes i l) →
        ∃ i l, getFastestNode latencyPool = some i ∧
          ActiveWith PoolNode.latency latencyPool.nodes i l ∧
          ∀ j lj, ActiveWith PoolNode.latency latencyPool.nodes j lj → l ≤ lj ∧ (j < i → l < lj)) :=
  ⟨by decide, (getFastestNode_spec.1 latencyPool (by decide)).1⟩

/-- C6.  On every non-empty pool in which no node is active, `getFastestNode`
returns `nodes[0]`, whatever the latencies of the nodes. -/
theorem getFastestNode_no_active (neo : Neo) (hne : neo.nodes ≠ [])
    (hinactive : ∀ node ∈ neo.nodes, node.active ≠ some true) :
    getFastestNode neo = some 0 := by
  simp only [getFastestNode, minBy, filterActive_eq_nil neo.nodes hinactive, baseExtremum,
    Option.map_none']
  exact firstNode_of_ne_nil neo hne

/-- C6 at a pool whose later nodes carry smaller stale latencies than `nodes[0]`. -/
theorem getFastestNode_no_active_witness :
    inactivePool.nodes ≠ [] ∧ (∀ node ∈ inactivePool.nodes, node.active ≠ some true) ∧
    getFastestNode inactivePool = some 0 :=
  ⟨by decide, by decide, getFastestNode_no_active inactivePool (by decide) (by decide)⟩

/-- C7.  On every non-empty pool: when some node is active with a known height,
`getHighestNode` returns such a node, its height is at least that of every such
node and strictly greater than that of every such node before it in pool order
(so it is the first with the maximum); when no node is active with a known
height it returns `nodes[0]`.  On heights `[90, 100, 100]`, all active, it
returns the second node, the earlier of the two at height 100. -/
theorem getHighestNode_spec :
    (∀ neo : Neo, neo.nodes ≠ [] →
      ((∃ i h, ActiveWith PoolNode.blockHeight neo.nodes i h) →
        ∃ i h, getHighestNode neo = some i ∧ ActiveWith PoolNode.blockHeight neo.nodes i h ∧
          ∀ j hj, ActiveWith PoolNode.blockHeight neo.nodes j hj → hj ≤ h ∧ (j < i → hj < h)) ∧
      ((¬ ∃ i h, ActiveWith PoolNode.blockHeight neo.nodes i h) → getHighestNode neo = some 0)) ∧
    (getHighestNode heightPool = some 1 ∧
      heightPool.nodes[1]?.bind PoolNode.blockHeight = some 100 ∧
      heightPool.nodes[2]?.bind PoolNode.blockHeight = some 100) :=
  ⟨fun neo hne => getHighestNode_char neo hne, by decide, by decide, by decide⟩

/-- C7 at the pool with heights `[90, 100, 100]`. -/
theorem getHighestNode_spec_witness :
    heightPool.nodes ≠ [] ∧
    ((∃ i h, ActiveWith PoolNode.blockHeight heightPool.nodes i h) →
        ∃ i h, getHighestNode heightPool = some i ∧
          ActiveWith PoolNode.blockHeight heightPool.nodes i h ∧
          ∀ j hj, ActiveWith PoolNode.blockHeight heightPool.nodes j hj →
            hj ≤ h ∧ (j < i → hj < h)) :=
  ⟨by decide, (getHighestNode_spec.1 heightPool (by decide)).1⟩

/-! ## The node pool: the current node -/

/-- A position with an active node is a position of the list. -/
theorem activeWith_lt {key : PoolNode → Option Int} {nodes : List PoolNode} {i : Nat} {v : Int}
    (h : ActiveWith key nodes i v) : i < nodes.length := by
  obtain ⟨node, hget, _⟩ := h
  exact (List.getElem?_eq_some.mp hget).1

/-- On a non-empty pool `getFastestNode` returns a member. -/
theorem getFastestNode_lt (neo : Neo) (hne : neo.nodes ≠ []) :
    ∃ i, getFastestNode neo = some i ∧ i < neo.nodes.length := by
  by_cases hc : ∃ i l, ActiveWith PoolNode.latency neo.nodes i l
  · obtain ⟨i, l, hi, hact, _⟩ := (getFastestNode_char neo hne).1 hc
    exact ⟨i, hi, activeWith_lt hact⟩
  · exact ⟨0, (getFastestNode_char neo hne).2 hc, List.length_pos.mpr hne⟩

/-- On a non-empty pool `getHighestNode` returns a member. -/
theorem getHighestNode_lt (neo : Neo) (hne : neo.nodes ≠ []) :
    ∃ i, getHighestNode neo = some i ∧ i < neo.nodes.length := by
  by_cases hc : ∃ i h, ActiveWith PoolNode.blockHeight neo.nodes i h
  · obtain ⟨i, l, hi, hact, _⟩ := (getHighestNode_char neo hne).1 hc
    exact ⟨i, hi, activeWith_lt hact⟩
  · exact ⟨0, (getHighestNode_char neo hne).2 hc, List.length_pos.mpr hne⟩

/-- Two pools with the same active nodes and latencies have the same fastest node. -/
theorem getFastestNode_congr (neo neo1 : Neo) (hne : neo.nodes ≠ []) (hne1 : neo1.nodes ≠ [])
    (h : ∀ i v, ActiveWith PoolNode.latency neo1.nodes i v ↔ ActiveWith PoolNode.latency neo.nodes i v) :
    getFastestNode neo1 = getFastestNode neo := by
  by_cases hc : ∃ i l, ActiveWith PoolNode.latency neo.nodes i l
  · have hc1 : ∃ i l, ActiveWith PoolNode.latency neo1.nodes i l := by
      obtain ⟨i, l, hil⟩ := hc
      exact ⟨i, l, (h i l).mpr hil⟩
    obtain ⟨i, l, hi, hact, hall⟩ := (getFastestNode_char neo hne).1 hc
    obtain ⟨i1, l1, hi1, hact1, hall1⟩ := (getFastestNode_char neo1 hne1).1 hc1
    have a := hall i1 l1 ((h i1 l1).mp hact1)
    have b := hall1 i l ((h i l).mpr hact)
    have : i1 = i := by
      rcases Nat.lt_trichotomy i1 i with hlt | heq | hgt
      · have := a.2 hlt; omega
      · exact heq
      · have := b.2 hgt; omega
    rw [hi, hi1, this]
  · have hc1 : ¬ ∃ i l, ActiveWith PoolNode.latency neo1.nodes i l := by
      rintro ⟨i, l, hil⟩
      exact hc ⟨i, l, (h i l).mp hil⟩
    rw [(getFastestNode_char neo hne).2 hc, (getFastestNode_char neo1 hne1).2 hc1]

/-- Two pools with the same active nodes and heights have the same highest node. -/
theorem getHighestNode_congr (neo neo1 : Neo) (hne : neo.nodes ≠ []) (hne1 : neo1.nodes ≠ [])
    (h : ∀ i v, ActiveWith PoolNode.blockHeight neo1.nodes i v ↔
      ActiveWith PoolNode.blockHeight neo.nodes i v) :
    getHighestNode neo1 = getHighestNode neo := by
  by_cases hc : ∃ i l, ActiveWith PoolNode.blockHeight neo.nodes i l
  · have hc1 : ∃ i l, ActiveWith PoolNode.blockHeight neo1.nodes i l := by
      obtain ⟨i, l, hil⟩ := hc
      exact ⟨i, l, (h i l).mpr hil⟩
    obtain ⟨i, l, hi, hact, hall⟩ := (getHighestNode_char neo hne).1 hc
    obtain ⟨i1, l1, hi1, hact1, hall1⟩ := (getHighestNode_char neo1 hne1).1 hc1
    have a := hall i1 l1 ((h i1 l1).mp hact1)
    have b := hall1 i l ((h i l).mpr hact)
    have : i1 = i := by
      rcases Nat.lt_trichotomy i1 i with hlt | heq | hgt
      · have := a.2 hlt; omega
      · exact heq
      · have := b.2 hgt; omega
    rw [hi, hi1, this]
  · have hc1 : ¬ ∃ i l, ActiveWith PoolNode.blockHeight neo1.nodes i l := by
      rintro ⟨i, l, hil⟩
      exact hc ⟨i, l, (h i l).mp hil⟩
    rw [(getHighestNode_char neo hne).2 hc, (getHighestNode_char neo1 hne1).2 hc1]

/-- The initialisation of a node object leaves its health attributes alone. -/
theorem initNodeObject_fields (node : PoolNode) :
    (initNodeObject node).active = node.active ∧
    (initNodeObject node).latency = node.latency ∧
    (initNodeObject node).blockHeight = node.blockHeight := by
  unfold initNodeObject
  refine ⟨?_, ?_, ?_⟩ <;> (simp only []; split_ifs <;> rfl)

/-- A write to one node that keeps `active` and `key` keeps `ActiveWith`. -/
theorem activeWith_modify (key : PoolNode → Option Int) (g : PoolNode → PoolNode)
    (hact : ∀ node, (g node).active = node.active) (hkey : ∀ node, key (g node) = key node)
    (nodes : List PoolNode) (t i : Nat) (v : Int) :
    ActiveWith key (nodes.modify g t) i v ↔ ActiveWith key nodes i v := by
  unfold ActiveWith
  by_cases hti : t = i
  · subst hti
    rw [List.getElem?_modify_eq]
    constructor
    · rintro ⟨node, hget, ha, hk⟩
      cases hn : nodes[t]? with
      | none => rw [hn] at hget; cases hget
      | some node0 =>
        rw [hn] at hget
        simp only [Option.map_eq_map, Option.map_some', Option.some.injEq] at hget
        subst hget
        exact ⟨node0, rfl, by rw [← hact]; exact ha, by rw [← hkey]; exact hk⟩
    · rintro ⟨node, hget, ha, hk⟩
      exact ⟨g node, by rw [hget]; rfl, by rw [hact]; exact ha, by rw [hkey]; exact hk⟩
  · rw [List.getElem?_modify_ne _ _ hti]

/-- The initialisation of one node keeps `ActiveWith`. -/
theorem activeWith_initNode (key : PoolNode → Option Int)
    (hkey : ∀ node, key (initNodeObject node) = key node) (nodes : List PoolNode) (t i : Nat)
    (v : Int) :
    ActiveWith key (nodes.modify initNodeObject t) i v ↔ ActiveWith key nodes i v :=
  activeWith_modify key initNodeObject (fun node => (initNodeObject_fields node).1) hkey nodes t i v

/-- Setting the current node to a member succeeds; the state afterwards. -/
theorem setCurrentNode_ok (neo : Neo) (i : Nat) (hi : i < neo.nodes.length) :
    ∃ neo1, _setCurrentNode (some i) neo = Except.ok neo1 ∧ neo1.currentNode = some i ∧
      neo1.nodes = neo.nodes.modify initNodeObject i ∧ neo1.options = neo.options ∧
      neo1.intervals = neo.intervals ∧
      neo1.rpc = (neo.nodes.modify initNodeObject i)[i]?.bind PoolNode.rpc := by
  have hlen : i < (neo.nodes.modify initNodeObject i).length := by simpa using hi
  obtain ⟨obj, hobj⟩ : ∃ obj, (neo.nodes.modify initNodeObject i)[i]? = some obj :=
    ⟨_, List.getElem?_eq_getElem hlen⟩
  refine ⟨{ neo with nodes := neo.nodes.modify initNodeObject i, currentNode := some i, rpc := obj.rpc }, ?_, rfl, rfl, rfl, rfl, ?_⟩
  · simp only [_setCurrentNode, _initNode, hobj]
  · simp only [hobj, Option.some_bind]

/-- With enough fuel the digit count `b` of a positive `n` has `2^(b-1) <= n < 2^b`. -/
theorem bitsFuel_spec : ∀ (fuel n : Nat), n ≤ fuel → n ≠ 0 →
    2 ^ (bitsFuel fuel n - 1) ≤ n ∧ n < 2 ^ bitsFuel fuel n := by
  intro fuel
  induction fuel with
  | zero => intro n h h0; omega
  | succ fuel ih =>
    intro n h h0
    simp only [bitsFuel, if_neg h0, Nat.add_sub_cancel]
    by_cases hhalf : n / 2 = 0
    · have hn1 : n = 1 := by omega
      subst hn1
      cases fuel <;> simp [bitsFuel]
    · have hle : n / 2 ≤ fuel := by omega
      obtain ⟨h1, h2⟩ := ih (n / 2) hle hhalf
      have hb : 1 ≤ bitsFuel fuel (n / 2) := by
        cases fuel with
        | zero => omega
        | succ f => simp [bitsFuel, hhalf]
      have e : 2 ^ bitsFuel fuel (n / 2) = 2 * 2 ^ (bitsFuel fuel (n / 2) - 1) := by
        rw [← Nat.pow_succ']; congr 1; omega
      constructor
      · rw [e]; omega
      · rw [Nat.pow_succ]; omega

/-- The digit count `b` of a positive `n` has `2^(b-1) <= n < 2^b`. -/
theorem bitLength_spec (n : Nat) (h : n ≠ 0) :
    2 ^ (bitLength n - 1) ≤ n ∧ n < 2 ^ bitLength n :=
  bitsFuel_spec n n (Nat.le_refl n) h

/-- Rounding moves up by at most half a quantum. -/
theorem roundHalfEven_upper (N s : Nat) : 2 * (roundHalfEven N s * 2 ^ s) ≤ 2 * N + 2 ^ s := by
  have hN := Nat.div_add_mod N (2 ^ s)
  unfold roundHalfEven
  simp only []
  generalize N / 2 ^ s = q at hN ⊢
  generalize N % 2 ^ s = rest at hN ⊢
  generalize 2 ^ s = S at hN ⊢
  subst hN
  split_ifs with h1 h2 h3
  · nlinarith
  · nlinarith
  · nlinarith
  · have : 2 * rest = S := by omega
    nlinarith

/-- Rounding never goes below the quotient rounded down. -/
theorem roundHalfEven_lower (N s : Nat) : N / 2 ^ s ≤ roundHalfEven N s := by
  unfold roundHalfEven
  simp only []
  split_ifs <;> omega

/-- The double product of a draw and a positive length is below the length: the
exact product is at least `length * 2^-53` below it, more than half a rounding
quantum. -/
theorem productNumerator_lt (draw : UnitDraw) (length : Nat) (h : 0 < length) :
    productNumerator draw length < length * 2 ^ draw.j := by
  have hm := draw.m_lt
  have hJ : 2 ^ 53 ≤ 2 ^ draw.j := Nat.pow_le_pow_right (by norm_num) draw.j_ge
  unfold productNumerator
  simp only []
  split_ifs with hN
  · calc draw.m * length < 2 ^ 53 * length := Nat.mul_lt_mul_of_pos_right hm h
      _ ≤ 2 ^ draw.j * length := Nat.mul_le_mul_right _ hJ
      _ = length * 2 ^ draw.j := Nat.mul_comm _ _
  · have hN' : 2 ^ 53 ≤ draw.m * length := Nat.le_of_not_lt hN
    have hne : draw.m * length ≠ 0 := by
      intro h0; rw [h0] at hN'; norm_num at hN'
    obtain ⟨hlow, hhigh⟩ := bitLength_spec (draw.m * length) hne
    have hb : 54 ≤ bitLength (draw.m * length) := by
      by_contra hc
      have : 2 ^ bitLength (draw.m * length) ≤ 2 ^ 53 :=
        Nat.pow_le_pow_right (by norm_num) (by omega)
      omega
    have hsplit : 2 ^ (bitLength (draw.m * length) - 1)
        = 2 ^ 52 * 2 ^ (bitLength (draw.m * length) - 53) := by
      rw [← Nat.pow_add]; congr 1; omega
    rw [hsplit] at hlow
    have hup := roundHalfEven_upper (draw.m * length) (bitLength (draw.m * length) - 53)
    generalize roundHalfEven (draw.m * length) (bitLength (draw.m * length) - 53)
      * 2 ^ (bitLength (draw.m * length) - 53) = R at hup ⊢
    generalize 2 ^ (bitLength (draw.m * length) - 53) = S at hup hlow
    generalize 2 ^ draw.j = J at hJ ⊢
    by_contra hcon
    have hge : length * J ≤ R := Nat.le_of_not_lt hcon
    have e1 : (2 ^ 53 + 1) * (draw.m * length) < 2 ^ 53 * (length * J) := by
      have : (2 ^ 53 + 1) * draw.m < 2 ^ 53 * J := by
        calc (2 ^ 53 + 1) * draw.m ≤ (2 ^ 53 + 1) * (2 ^ 53 - 1) :=
              Nat.mul_le_mul_left _ (by omega)
          _ < 2 ^ 53 * 2 ^ 53 := by norm_num
          _ ≤ 2 ^ 53 * J := Nat.mul_le_mul_left _ hJ
      calc (2 ^ 53 + 1) * (draw.m * length) = ((2 ^ 53 + 1) * draw.m) * length := by ring
        _ < (2 ^ 53 * J) * length := Nat.mul_lt_mul_of_pos_right this h
        _ = 2 ^ 53 * (length * J) := by ring
    generalize draw.m * length = N at hlow hup e1
    generalize length * J = L at hge e1
    omega

/-- The sampled index is a position of a non-empty list. -/
theorem targetIndex_lt (draw : UnitDraw) (length : Nat) (h : 0 < length) :
    targetIndex draw length < length := by
  unfold targetIndex
  rw [Nat.div_lt_iff_lt_mul (Nat.two_pow_pos _)]
  exact productNumerator_lt draw length h

/-- Setting the current node to a member of a non-empty pool keeps the pool in
working order. -/
theorem setCurrentNode_poolOk (neo : Neo) (i : Nat) (hne : neo.nodes ≠ [])
    (hi : i < neo.nodes.length) :
    ∃ neo1, _setCurrentNode (some i) neo = Except.ok neo1 ∧ PoolOk neo1 ∧
      neo1.currentNode = some i ∧ neo1.nodes = neo.nodes.modify initNodeObject i := by
  obtain ⟨neo1, hrun, hcur, hnodes, _⟩ := setCurrentNode_ok neo i hi
  refine ⟨neo1, hrun, ⟨?_, i, hcur, ?_⟩, hcur, hnodes⟩
  · rw [hnodes]; simpa using hne
  · rw [hnodes]; simpa using hi

/-- A diagnostic sample succeeds as a step, keeps the pool in working order and
keeps `currentNode`. -/
theorem diagnose_poolOk (draw : UnitDraw) (outcome : SampleOutcome) (neo : Neo)
    (hok : PoolOk neo) :
    ∃ neo1, _diagnoseRandomNode draw outcome neo = Except.ok neo1 ∧ PoolOk neo1 ∧
      neo1.currentNode = neo.currentNode := by
  obtain ⟨hne, i, hcur, hi⟩ := hok
  have hlt := targetIndex_lt draw neo.nodes.length (List.length_pos.mpr hne)
  refine ⟨(diagnoseSettle (targetIndex draw neo.nodes.length) outcome
    { neo with nodes := neo.nodes.modify initNodeObject (targetIndex draw neo.nodes.length) }).1,
    by simp only [_diagnoseRandomNode, diagnoseStart, if_pos hlt, _initNode], ?_, ?_⟩
  · cases outcome <;> exact ⟨by simpa [diagnoseSettle] using hne, i, hcur, by simpa [diagnoseSettle] using hi⟩
  · cases outcome <;> rfl

/-- Every step succeeds on a pool in working order and keeps it so. -/
theorem step_poolOk (s : PoolStep) (neo : Neo) (hok : PoolOk neo) :
    ∃ neo1, s.run neo = Except.ok neo1 ∧ PoolOk neo1 := by
  cases s with
  | setDefaultNode =>
    obtain ⟨neo1, h1, h2, _⟩ := setCurrentNode_poolOk neo 0 hok.1 (List.length_pos.mpr hok.1)
    exact ⟨neo1, by simpa [PoolStep.run, setDefaultNode, firstNode_of_ne_nil neo hok.1] using h1, h2⟩
  | setFastestNode =>
    obtain ⟨i, hi, hlt⟩ := getFastestNode_lt neo hok.1
    obtain ⟨neo1, h1, h2, _⟩ := setCurrentNode_poolOk neo i hok.1 hlt
    exact ⟨neo1, by simpa [PoolStep.run, setFastestNode, hi] using h1, h2⟩
  | setHighestNode =>
    obtain ⟨i, hi, hlt⟩ := getHighestNode_lt neo hok.1
    obtain ⟨neo1, h1, h2, _⟩ := setCurrentNode_poolOk neo i hok.1 hlt
    exact ⟨neo1, by simpa [PoolStep.run, setHighestNode, hi] using h1, h2⟩
  | diagnose draw outcome =>
    obtain ⟨neo1, h1, h2, _⟩ := diagnose_poolOk draw outcome neo hok
    exact ⟨neo1, by simpa [PoolStep.run] using h1, h2⟩

/-- Every run succeeds on a pool in working order and keeps it so. -/
theorem runSteps_poolOk (steps : List PoolStep) : ∀ (neo : Neo), PoolOk neo →
    ∃ neo1, runSteps steps neo = Except.ok neo1 ∧ PoolOk neo1 := by
  induction steps with
  | nil => intro neo hok; exact ⟨neo, rfl, hok⟩
  | cons s rest ih =>
    intro neo hok
    obtain ⟨neo1, h1, hok1⟩ := step_poolOk s neo hok
    obtain ⟨neo2, h2, hok2⟩ := ih neo1 hok1
    exact ⟨neo2, by simp only [runSteps, h1, h2], hok2⟩

/-- The registration of the periodic tasks touches neither the nodes nor the
current node. -/
theorem initDiagnostic_frame (neo : Neo) :
    (_initDiagnostic neo).nodes = neo.nodes ∧ (_initDiagnostic neo).currentNode = neo.currentNode ∧
    (_initDiagnostic neo).rpc = neo.rpc := by
  unfold _initDiagnostic
  refine ⟨?_, ?_, ?_⟩ <;> (simp only []; split_ifs <;> rfl)

/-- The constructor succeeds on a non-empty node list and yields a pool in
working order. -/
theorem newNeo_poolOk (nodes : List PoolNode) (options : Options) (hne : nodes ≠ []) :
    ∃ neo0, newNeo nodes options = Except.ok neo0 ∧ PoolOk neo0 := by
  let start : Neo := ⟨options, nodes, none, none, []⟩
  obtain ⟨neo1, h1, h2, _⟩ := setCurrentNode_poolOk start 0 hne (List.length_pos.mpr hne)
  have hfirst : firstNode start = some 0 := firstNode_of_ne_nil start hne
  refine ⟨_initLocalNode (_initDiagnostic neo1), ?_, ?_⟩
  · show (match setDefaultNode start with
      | Except.error e => Except.error e
      | Except.ok neo1 => Except.ok (_initLocalNode (_initDiagnostic neo1))) = _
    simp only [setDefaultNode, hfirst, h1]
  · obtain ⟨hn, hc, _⟩ := initDiagnostic_frame neo1
    unfold PoolOk _initLocalNode
    rw [hn, hc]
    exact h2

/-- C9.  For a non-empty node list the constructor succeeds, and after every
prefix of every sequence of `setDefaultNode`, `setFastestNode`, `setHighestNode`
and diagnostic samples (succeeding or failing) no step has thrown, `currentNode`
is defined and refers to a member of `nodes`, and `getFastestNode` and
`getHighestNode` return members of `nodes`. -/
theorem currentNode_always_member (nodes : List PoolNode) (options : Options)
    (steps : List PoolStep) (hne : nodes ≠ []) :
    ∃ neo0, newNeo nodes options = Except.ok neo0 ∧
      ∀ k, ∃ neo, runSteps (steps.take k) neo0 = Except.ok neo ∧
        (∃ i, getCurrentNode neo = some i ∧ i < neo.nodes.length) ∧
        (∃ i, getFastestNode neo = some i ∧ i < neo.nodes.length) ∧
        (∃ i, getHighestNode neo = some i ∧ i < neo.nodes.length) := by
  obtain ⟨neo0, h0, hok0⟩ := newNeo_poolOk nodes options hne
  refine ⟨neo0, h0, fun k => ?_⟩
  obtain ⟨neo, hrun, hok⟩ := runSteps_poolOk (steps.take k) neo0 hok0
  exact ⟨neo, hrun, hok.2, getFastestNode_lt neo hok.1, getHighestNode_lt neo hok.1⟩

/-- C9 at a pool of three nodes and a run of five steps. -/
theorem currentNode_always_member_witness :
    latencyPool.nodes ≠ [] ∧
    ∃ neo0, newNeo latencyPool.nodes Defaults = Except.ok neo0 ∧
      ∀ k, ∃ neo, runSteps (sampleSteps.take k) neo0 = Except.ok neo ∧
        (∃ i, getCurrentNode neo = some i ∧ i < neo.nodes.length) ∧
        (∃ i, getFastestNode neo = some i ∧ i < neo.nodes.length) ∧
        (∃ i, getHighestNode neo = some i ∧ i < neo.nodes.length) :=
  ⟨by decide, currentNode_always_member latencyPool.nodes Defaults sampleSteps (by decide)⟩

/-- C10.  On every non-empty pool each of the three setters succeeds.  After
`setHighestNode` the current node is the node `getHighestNode` returned, which
`getHighestNode` still returns afterwards, and when some node is active with a
known height it is an active node of greatest height.  After `setFastestNode`
the current node is the node `getFastestNode` returned and still returns.  After
`setDefaultNode` the current node is `nodes[0]`, before as after. -/
theorem getCurrentNode_after_set (neo : Neo) (hne : neo.nodes ≠ []) :
    (∃ neo1, setHighestNode neo = Except.ok neo1 ∧
      getCurrentNode neo1 = getHighestNode neo ∧ getHighestNode neo1 = getHighestNode neo ∧
      ((∃ i h, ActiveWith PoolNode.blockHeight neo1.nodes i h) →
        ∃ i h, getCurrentNode neo1 = some i ∧ ActiveWith PoolNode.blockHeight neo1.nodes i h ∧
          ∀ j hj, ActiveWith PoolNode.blockHeight neo1.nodes j hj → hj ≤ h)) ∧
    (∃ neo1, setFastestNode neo = Except.ok neo1 ∧
      getCurrentNode neo1 = getFastestNode neo ∧ getFastestNode neo1 = getFastestNode neo) ∧
    (∃ neo1, setDefaultNode neo = Except.ok neo1 ∧
      getCurrentNode neo1 = some 0 ∧ firstNode neo1 = firstNode neo) := by
  refine ⟨?_, ?_, ?_⟩
  · obtain ⟨i, hi, hlt⟩ := getHighestNode_lt neo hne
    obtain ⟨neo1, h1, hok, hcur, hnodes⟩ := setCurrentNode_poolOk neo i hne hlt
    have hsame : getHighestNode neo1 = getHighestNode neo := by
      apply getHighestNode_congr neo neo1 hne hok.1
      intro j v
      rw [hnodes]
      exact activeWith_initNode PoolNode.blockHeight
        (fun node => (initNodeObject_fields node).2.2) neo.nodes i j v
    refine ⟨neo1, by simpa [setHighestNode, hi] using h1, by simpa [getCurrentNode, hi] using hcur,
      hsame, ?_⟩
    intro hc
    obtain ⟨i1, h, hi1, hact, hall⟩ := (getHighestNode_char neo1 hok.1).1 hc
    refine ⟨i1, h, ?_, hact, fun j hj hjact => (hall j hj hjact).1⟩
    rw [← hi1, hsame, hi]
    exact hcur
  · obtain ⟨i, hi, hlt⟩ := getFastestNode_lt neo hne
    obtain ⟨neo1, h1, hok, hcur, hnodes⟩ := setCurrentNode_poolOk neo i hne hlt
    refine ⟨neo1, by simpa [setFastestNode, hi] using h1, by simpa [getCurrentNode, hi] using hcur, ?_⟩
    apply getFastestNode_congr neo neo1 hne hok.1
    intro j v
    rw [hnodes]
    exact activeWith_initNode PoolNode.latency
      (fun node => (initNodeObject_fields node).2.1) neo.nodes i j v
  · obtain ⟨neo1, h1, hok, hcur, _⟩ := setCurrentNode_poolOk neo 0 hne (List.length_pos.mpr hne)
    refine ⟨neo1, by simpa [setDefaultNode, firstNode_of_ne_nil neo hne] using h1, hcur, ?_⟩
    rw [firstNode_of_ne_nil neo hne, firstNode_of_ne_nil neo1 hok.1]

/-- C10 at the pool with heights `[90, 100, 100]`. -/
theorem getCurrentNode_after_set_witness :
    heightPool.nodes ≠ [] ∧
    (∃ neo1, setDefaultNode heightPool = Except.ok neo1 ∧
      getCurrentNode neo1 = some 0 ∧ firstNode neo1 = firstNode heightPool) :=
  ⟨by decide, (getCurrentNode_after_set heightPool (by decide)).2.2⟩

/-! ## The endpoint health tracker: one call of `query` -/

/-- The `.catch` callback appends `query:failed` to the trace and rejects with
the error it was given. -/
theorem catchCallback_trace (method : String) (now : Int) (err : JSVal) (run : QueryRun) :
    (catchCallback method now err run).trace
      = run.trace ++ [Effect.emitted "query:failed" (failedPayload method err)] ∧
    (catchCallback method now err run).result = Except.error err := by
  simp [catchCallback]

/-- C13.  Whatever the method, the parameters and the way the transport settles
(rejected, or resolved with any value, one on which the `.then` callback throws
included), the trace of `Node.query` is `query:init`, then the one transport
invocation, then one event that is `query:success` or `query:failed`: the events
emitted are exactly `query:init` followed by exactly one call-end event. -/
theorem query_events (C : RpcMethods) (method : String) (params : List JSVal) (id : ℚ)
    (settled : Settled) (t0 t1 now : Int) (n : Node) :
    ∃ endEvent endPayload,
      (query C method params id settled t0 t1 now n).trace =
        [Effect.emitted "query:init" (initPayload method params id),
         Effect.transport n.endpoint method params id,
         Effect.emitted endEvent endPayload] ∧
      (endEvent = "query:success" ∨ endEvent = "query:failed") ∧
      emittedEvents (query C method params id settled t0 t1 now n).trace
        = ["query:init", endEvent] ∧
      transportCalls (query C method params id settled t0 t1 now n).trace = 1 := by
  cases settled with
  | rejected err =>
    exact ⟨"query:failed", failedPayload method err, by simp [query, catchCallback],
      Or.inr rfl, by simp [query, catchCallback, emittedEvents],
      by simp [query, catchCallback, transportCalls]⟩
  | resolved res =>
    cases hthen : thenCallback C method t0 t1 res with
    | error e =>
      exact ⟨"query:failed", failedPayload method e, by simp [query, hthen, catchCallback],
        Or.inr rfl, by simp [query, hthen, catchCallback, emittedEvents],
        by simp [query, hthen, catchCallback, transportCalls]⟩
    | ok pr =>
      obtain ⟨payload, result⟩ := pr
      exact ⟨"query:success", payload, by simp [query, hthen],
        Or.inl rfl, by simp [query, hthen, emittedEvents],
        by simp [query, hthen, transportCalls]⟩

/-- What does hold of a resolved transport: `Node.query` resolves with `r` when
the method is not the version query, or `r` is neither `undefined` nor `null`. -/
theorem query_resolves (C : RpcMethods) (method : String) (params : List JSVal) (id : ℚ)
    (r : JSVal) (t0 t1 now : Int) (n : Node)
    (h : method ≠ C.getversion ∨ r.isNullish = false) :
    (query C method params id (Settled.resolved (response r)) t0 t1 now n).result
      = Except.ok r := by
  have hget : (response r).getProp "result" = Except.ok r := by
    simp [response, JSVal.getProp, JSVal.lookup]
  by_cases hv : method = C.getversion
  · have hr : r.isNullish = false := by
      rcases h with h | h
      · exact absurd hv h
      · exact h
    have hua : ∃ ua, r.getProp "useragent" = Except.ok ua := by
      cases r <;> simp [JSVal.getProp, JSVal.isNullish] at hr ⊢
    obtain ⟨ua, hua⟩ := hua
    simp [query, thenCallback, hget, hv, hua]
  · simp [query, thenCallback, hget, hv]

/-- What does hold of a rejected transport: `Node.query` rejects with the very
error of the transport, which was invoked once. -/
theorem query_rejects (C : RpcMethods) (method : String) (params : List JSVal) (id : ℚ)
    (err : JSVal) (t0 t1 now : Int) (n : Node) :
    (query C method params id (Settled.rejected err) t0 t1 now n).result = Except.error err ∧
    transportCalls (query C method params id (Settled.rejected err) t0 t1 now n).trace = 1 := by
  simp [query, catchCallback, transportCalls]

/-- C14, evaluated on the code.  A version query whose transport succeeds with
`{ result: null }` does not resolve with `null`: reading `result.useragent`
throws a `TypeError`, the `.catch` callback emits `query:failed`, the `Node` is
marked inactive and the promise rejects with the `TypeError`. -/
theorem getVersion_null_result_fails :
    (getVersion neoRpc (Settled.resolved (response JSVal.null)) 1000 1040 1041
        (newNode "http://seed1.neo.org:10332")).result = Except.error JSVal.typeError ∧
    emittedEvents (getVersion neoRpc (Settled.resolved (response JSVal.null)) 1000 1040 1041
        (newNode "http://seed1.neo.org:10332")).trace = ["query:init", "query:failed"] ∧
    (getVersion neoRpc (Settled.resolved (response JSVal.null)) 1000 1040 1041
        (newNode "http://seed1.neo.org:10332")).node.isActive = some false :=
  ⟨rfl, rfl, rfl⟩

/-- C15.  The record returned by `getNodeMeta` carries the seven fields of the
`Node` as they are, and the `Node` after the call is the `Node` before it. -/
theorem getNodeMeta_snapshot (n : Node) :
    (getNodeMetaStep n).1.isActive = n.isActive ∧
    (getNodeMetaStep n).1.pendingRequests = n.pendingRequests ∧
    (getNodeMetaStep n).1.latency = n.latency ∧
    (getNodeMetaStep n).1.blockHeight = n.blockHeight ∧
    (getNodeMetaStep n).1.lastSeenTimestamp = n.lastSeenTimestamp ∧
    (getNodeMetaStep n).1.userAgent = n.userAgent ∧
    (getNodeMetaStep n).1.endpoint = n.endpoint ∧
    (getNodeMetaStep n).2 = n :=
  ⟨rfl, rfl, rfl, rfl, rfl, rfl, rfl, rfl⟩

/-- The `userAgent` of the payload that the `.then` callback builds: absent for
a method other than the version query, the `useragent` property of the result
for the version query. -/
theorem thenCallback_userAgent (C : RpcMethods) (method : String) (t0 t1 : Int) (res : JSVal)
    (payload : Payload) (result : JSVal)
    (hthen : thenCallback C method t0 t1 res = Except.ok (payload, result)) :
    (method ≠ C.getversion → payload.userAgent = JSVal.undefined) ∧
    (method = C.getversion → result.getProp "useragent" = Except.ok payload.userAgent) := by
  unfold thenCallback at hthen
  cases hres : res.getProp "result" with
  | error e => rw [hres] at hthen; cases hthen
  | ok r =>
    rw [hres] at hthen
    simp only [] at hthen
    by_cases hv : method = C.getversion
    · rw [if_pos hv] at hthen
      cases hua : r.getProp "useragent" with
      | error e => rw [hua] at hthen; cases hthen
      | ok ua =>
        rw [hua] at hthen
        simp only [Except.ok.injEq, Prod.mk.injEq] at hthen
        obtain ⟨hp, hr⟩ := hthen
        subst hp hr
        exact ⟨fun h => absurd hv h, fun _ => hua⟩
    · rw [if_neg hv] at hthen
      simp only [Except.ok.injEq, Prod.mk.injEq] at hthen
      obtain ⟨hp, hr⟩ := hthen
      subst hp hr
      exact ⟨fun _ => rfl, fun h => absurd h hv⟩

/-- What does hold of the user agent: a version query answered with a non-empty
user-agent string records it. -/
theorem userAgent_after_version_query (C : RpcMethods) (s : String) (hs : s ≠ "")
    (t0 t1 now : Int) (n : Node) :
    (getVersion C (Settled.resolved (versionResponse s)) t0 t1 now n).node.userAgent
      = JSVal.str s := by
  have hthen : ∃ payload, thenCallback C C.getversion t0 t1 (versionResponse s)
      = Except.ok (payload, JSVal.obj [("useragent", JSVal.str s)]) ∧
      payload.userAgent = JSVal.str s ∧ payload.error = JSVal.undefined := by
    simp [thenCallback, versionResponse, response, JSVal.getProp, JSVal.lookup, successPayload]
  obtain ⟨payload, hthen, hua, he⟩ := hthen
  have herr : payload.error.truthy = false := by rw [he]; rfl
  have hsf := stopBenchmark_success_fields now payload (increasePendingRequest n) herr
  unfold getVersion
  rw [(query_success_node C C.getversion [] DEFAULT_ID _ t0 t1 now n payload _ hthen).1,
    hsf.2.2.2, hua, if_pos]
  simp only [JSVal.truthy]
  exact decide_eq_true hs

/-- A successful query of a method other than the version query leaves
`userAgent` as it was. -/
theorem userAgent_unchanged_other_method (C : RpcMethods) (method : String)
    (params : List JSVal) (id : ℚ) (res : JSVal) (t0 t1 now : Int) (n : Node)
    (payload : Payload) (result : JSVal)
    (hthen : thenCallback C method t0 t1 res = Except.ok (payload, result))
    (hm : method ≠ C.getversion) :
    (query C method params id (Settled.resolved res) t0 t1 now n).node.userAgent
      = n.userAgent := by
  obtain ⟨he, _, _, _⟩ := thenCallback_payload C method t0 t1 res payload result hthen
  have hua := (thenCallback_userAgent C method t0 t1 res payload result hthen).1 hm
  have herr : payload.error.truthy = false := by rw [he]; rfl
  have hsf := stopBenchmark_success_fields now payload (increasePendingRequest n) herr
  rw [(query_success_node C method params id res t0 t1 now n payload result hthen).1,
    hsf.2.2.2, hua]
  rfl

/-- A successful query of a method other than the height query leaves
`blockHeight` as it was. -/
theorem blockHeight_unchanged_other_method (C : RpcMethods) (method : String)
    (params : List JSVal) (id : ℚ) (res : JSVal) (t0 t1 now : Int) (n : Node)
    (payload : Payload) (result : JSVal)
    (hthen : thenCallback C method t0 t1 res = Except.ok (payload, result))
    (hm : method ≠ C.getblockcount) :
    (query C method params id (Settled.resolved res) t0 t1 now n).node.blockHeight
      = n.blockHeight := by
  obtain ⟨he, _, hb, _⟩ := thenCallback_payload C method t0 t1 res payload result hthen
  rw [if_neg hm] at hb
  have herr : payload.error.truthy = false := by rw [he]; rfl
  have hsf := stopBenchmark_success_fields now payload (increasePendingRequest n) herr
  rw [(query_success_node C method params id res t0 t1 now n payload result hthen).1,
    hsf.2.2.1, hb]
  rfl

/-- C16, evaluated on the code.  On a `Node` that has recorded the user agent
`/NEO:2.7.6/`, a version query that succeeds with `{ useragent: "" }` resolves
and marks the node active, and `userAgent` is still the stale `/NEO:2.7.6/`, not
the empty string: the guard `if (payload.userAgent)` takes the empty string for
an absent value. -/
theorem userAgent_stale_after_empty_useragent :
    (getVersion neoRpc (Settled.resolved (versionResponse "")) 2000 2040 2041
        versionedNode).result = Except.ok (JSVal.obj [("useragent", JSVal.str "")]) ∧
    (getVersion neoRpc (Settled.resolved (versionResponse "")) 2000 2040 2041
        versionedNode).node.isActive = some true ∧
    (getVersion neoRpc (Settled.resolved (versionResponse "")) 2000 2040 2041
        versionedNode).node.userAgent = JSVal.str "/NEO:2.7.6/" ∧
    JSVal.str "/NEO:2.7.6/" ≠ JSVal.str "" :=
  ⟨rfl, rfl, rfl, by simp⟩

/-- C18.  In `stopBenchmark` a payload with a truthy `error` takes 2 off
`pendingRequests` and a payload without one takes 1 off; hence on a fresh `Node`
one `query:init` followed by one `query:failed` with an error leaves
`pendingRequests` at `-1`. -/
theorem stopBenchmark_decrease (now : Int) (payload : Payload) (n : Node) :
    (payload.error.truthy = true →
      (stopBenchmark now payload n).pendingRequests = n.pendingRequests - 2) ∧
    (payload.error.truthy = false →
      (stopBenchmark now payload n).pendingRequests = n.pendingRequests - 1) ∧
    (payload.error.truthy = true → ∀ (endpoint : String) (started : Payload),
      (deliverAll (newNode endpoint)
        [QueryEvent.init started, QueryEvent.failed now payload]).pendingRequests = -1) := by
  refine ⟨fun h => ?_, fun h => ?_, fun h endpoint started => ?_⟩
  · rw [pendingRequests_stopBenchmark, h]; rfl
  · rw [pendingRequests_stopBenchmark, h]; rfl
  · rw [pendingRequests_deliverAll]
    simp [newNode, countStarts, countEnds, countErrorEnds, QueryEvent.isStart,
      QueryEvent.hasError, h]

/-- C18 at a connection error. -/
theorem stopBenchmark_decrease_witness :
    (failedPayload "getblockcount" connectionError).error.truthy = true ∧
    (stopBenchmark 5 (failedPayload "getblockcount" connectionError) syncedNode).pendingRequests
      = syncedNode.pendingRequests - 2 ∧
    (deliverAll (newNode "http://seed1.neo.org:10332")
      [QueryEvent.init (initPayload "getblockcount" [] 0),
       QueryEvent.failed 5 (failedPayload "getblockcount" connectionError)]).pendingRequests
      = -1 :=
  ⟨rfl,
   (stopBenchmark_decrease 5 (failedPayload "getblockcount" connectionError) syncedNode).1 rfl,
   (stopBenchmark_decrease 5 (failedPayload "getblockcount" connectionError) syncedNode).2.2 rfl
     "http://seed1.neo.org:10332" (initPayload "getblockcount" [] 0)⟩

/-! ## The node pool: the diagnostic sampler -/

/-- What does hold of a failed sample, at every verbose level and for every
rejection value: on a non-empty pool `_diagnoseRandomNode` itself does not throw;
once the sample has settled the sampled node is inactive with its latency and
height as before, and every other node is as before. -/
theorem failed_sample_marks_inactive (neo : Neo) (draw : UnitDraw) (err : JSVal)
    (hne : neo.nodes ≠ []) :
    ∃ neo1, _diagnoseRandomNode draw (SampleOutcome.rejected err) neo = Except.ok neo1 ∧
      (∃ before after, neo.nodes[targetIndex draw neo.nodes.length]? = some before ∧
        neo1.nodes[targetIndex draw neo.nodes.length]? = some after ∧
        after.active = some false ∧ after.latency = before.latency ∧
        after.blockHeight = before.blockHeight) ∧
      (∀ j, j ≠ targetIndex draw neo.nodes.length → neo1.nodes[j]? = neo.nodes[j]?) := by
  have hlt := targetIndex_lt draw neo.nodes.length (List.length_pos.mpr hne)
  refine ⟨(diagnoseSettle (targetIndex draw neo.nodes.length) (SampleOutcome.rejected err)
    { neo with nodes := neo.nodes.modify initNodeObject (targetIndex draw neo.nodes.length) }).1,
    by simp only [_diagnoseRandomNode, diagnoseStart, if_pos hlt, _initNode], ?_, ?_⟩
  · refine ⟨neo.nodes[targetIndex draw neo.nodes.length],
      sampleRejected (initNodeObject neo.nodes[targetIndex draw neo.nodes.length]),
      List.getElem?_eq_getElem hlt, ?_, rfl, ?_, ?_⟩
    · simp only [diagnoseSettle, List.getElem?_modify_eq, List.getElem?_eq_getElem hlt,
        Option.map_eq_map, Option.map_some']
    · exact (initNodeObject_fields _).2.1
    · exact (initNodeObject_fields _).2.2
  · intro j hj
    simp only [diagnoseSettle]
    rw [List.getElem?_modify_ne _ _ (Ne.symm hj), List.getElem?_modify_ne _ _ (Ne.symm hj)]

/-- The state after a failed sample of the pool with latencies
`[50, 20, unknown]` at the draw `1/2`. -/
theorem failed_sample_marks_inactive_witness :
    latencyPool.nodes ≠ [] ∧
    ∃ neo1, _diagnoseRandomNode halfDraw (SampleOutcome.rejected connectionError) latencyPool
        = Except.ok neo1 ∧
      (∃ before after, latencyPool.nodes[targetIndex halfDraw latencyPool.nodes.length]?
          = some before ∧
        neo1.nodes[targetIndex halfDraw latencyPool.nodes.length]? = some after ∧
        after.active = some false ∧ after.latency = before.latency ∧
        after.blockHeight = before.blockHeight) ∧
      (∀ j, j ≠ targetIndex halfDraw latencyPool.nodes.length →
        neo1.nodes[j]? = latencyPool.nodes[j]?) :=
  ⟨by decide, failed_sample_marks_inactive latencyPool halfDraw connectionError (by decide)⟩

/-- What does hold of the rejection: below verbose level 3, or with a rejection
value that is neither `undefined` nor `null`, the `.catch` callback returns and
nothing is left unhandled. -/
theorem failed_sample_consumed (neo : Neo) (draw : UnitDraw) (err : JSVal)
    (hne : neo.nodes ≠ [])
    (h : neo.options.verboseLevel < 3 ∨ err.isNullish = false) :
    ∃ neo1, diagnoseRun draw (SampleOutcome.rejected err) neo = Except.ok (neo1, none) ∧
      _diagnoseRandomNode draw (SampleOutcome.rejected err) neo = Except.ok neo1 := by
  have hlt := targetIndex_lt draw neo.nodes.length (List.length_pos.mpr hne)
  have hlog : catchLog neo.options err = none := by
    unfold catchLog
    rcases h with h | h
    · rw [if_neg (by omega)]
    · split_ifs
      · cases err <;> simp [JSVal.isNullish, JSVal.getProp] at h ⊢
      · rfl
  refine ⟨(diagnoseSettle (targetIndex draw neo.nodes.length) (SampleOutcome.rejected err)
    { neo with nodes := neo.nodes.modify initNodeObject (targetIndex draw neo.nodes.length) }).1,
    ?_, by simp only [_diagnoseRandomNode, diagnoseStart, if_pos hlt, _initNode]⟩
  simp only [diagnoseRun, diagnoseStart, if_pos hlt, _initNode, diagnoseSettle, hlog]

/-- C11, evaluated on the code.  At verbose level 3 a diagnostic sample whose
height query is rejected with `undefined` marks the sampled node inactive and
then throws inside the `.catch` callback, on the read of `err.message` for the
log line: the rejection is not consumed, the chain ends in a promise rejected
with a `TypeError` that nothing handles. -/
theorem failed_sample_unhandled_rejection :
    verbosePool.options.verboseLevel = 3 ∧ targetIndex halfDraw verbosePool.nodes.length = 1 ∧
    ∃ neo1, diagnoseRun halfDraw (SampleOutcome.rejected JSVal.undefined) verbosePool
        = Except.ok (neo1, some JSVal.typeError) ∧
      neo1.nodes.map PoolNode.active = [some true, some false, some false] ∧
      neo1.nodes.map PoolNode.latency = verbosePool.nodes.map PoolNode.latency ∧
      neo1.nodes.map PoolNode.blockHeight = verbosePool.nodes.map PoolNode.blockHeight :=
  ⟨by decide, by decide, _, rfl, by decide, by decide, by decide⟩

/-- The three listeners write to one node only: the current node, the `rpc`
alias, the periodic tasks and the options are as before. -/
theorem poolEmit_frame (event url : String) (neo neo1 : Neo)
    (h : poolEmit event url neo = Except.ok neo1) :
    neo1.currentNode = neo.currentNode ∧ neo1.rpc = neo.rpc ∧
    neo1.intervals = neo.intervals ∧ neo1.options = neo.options := by
  unfold poolEmit onRpcCall onRpcCallResponse onRpcCallError at h
  cases hf : findByUrl neo.nodes url with
  | none =>
    rw [hf] at h
    simp only [] at h
    split_ifs at h
    cases h
    exact ⟨rfl, rfl, rfl, rfl⟩
  | some i =>
    rw [hf] at h
    simp only [] at h
    split_ifs at h <;> (cases h; exact ⟨rfl, rfl, rfl, rfl⟩)

/-- C12.  On a non-empty pool a diagnostic sample, whatever the index drawn and
whether it succeeds or fails, returns with `currentNode` and the `rpc` alias as
before; so does the firing of any timer, and so does every event the listeners
of the constructor handle.  What is left to write `currentNode` is
`_setCurrentNode`, which only the three setters call. -/
theorem sample_keeps_currentNode (neo : Neo) (draw : UnitDraw) (outcome : SampleOutcome)
    (hne : neo.nodes ≠ []) :
    (∃ neo1, _diagnoseRandomNode draw outcome neo = Except.ok neo1 ∧
      neo1.currentNode = neo.currentNode ∧ neo1.rpc = neo.rpc) ∧
    (∀ k, ∃ neo1, timerFires k draw outcome neo = Except.ok neo1 ∧
      neo1.currentNode = neo.currentNode ∧ neo1.rpc = neo.rpc) ∧
    (∀ event url neo1, poolEmit event url neo = Except.ok neo1 →
      neo1.currentNode = neo.currentNode ∧ neo1.rpc = neo.rpc) := by
  have hlt := targetIndex_lt draw neo.nodes.length (List.length_pos.mpr hne)
  have hsample : ∃ neo1, _diagnoseRandomNode draw outcome neo = Except.ok neo1 ∧
      neo1.currentNode = neo.currentNode ∧ neo1.rpc = neo.rpc := by
    refine ⟨(diagnoseSettle (targetIndex draw neo.nodes.length) outcome
      { neo with nodes := neo.nodes.modify initNodeObject (targetIndex draw neo.nodes.length) }).1,
      by simp only [_diagnoseRandomNode, diagnoseStart, if_pos hlt, _initNode], ?_, ?_⟩ <;>
    cases outcome <;> rfl
  refine ⟨hsample, fun k => ?_, fun event url neo1 h => ?_⟩
  · unfold timerFires
    cases hk : neo.intervals[k]? with
    | none => exact ⟨neo, rfl, rfl, rfl⟩
    | some t =>
      cases ht : t.task with
      | diagnoseRandomNode => simpa [Task.run, ht] using hsample
      | leaderboard =>
        obtain ⟨i, hi, _⟩ := getFastestNode_lt neo hne
        obtain ⟨j, hj, _⟩ := getHighestNode_lt neo hne
        exact ⟨neo, by simp [Task.run, ht, hi, hj], rfl, rfl⟩
  · exact ⟨(poolEmit_frame event url neo neo1 h).1, (poolEmit_frame event url neo neo1 h).2.1⟩

/-- C12 at a sample on a pool of three nodes; and a setter does move the current
node, here `setFastestNode` from `nodes[0]` to `nodes[1]`. -/
theorem sample_keeps_currentNode_witness :
    latencyPool.nodes ≠ [] ∧
    (∃ neo1, _diagnoseRandomNode halfDraw (SampleOutcome.resolved 100 1000 1040) latencyPool
        = Except.ok neo1 ∧
      neo1.currentNode = latencyPool.currentNode ∧ neo1.rpc = latencyPool.rpc) ∧
    (∃ neo0 neo1, newNeo latencyPool.nodes Defaults = Except.ok neo0 ∧
      setFastestNode neo0 = Except.ok neo1 ∧
      neo0.currentNode = some 0 ∧ neo1.currentNode = some 1) :=
  ⟨by decide,
   (sample_keeps_currentNode latencyPool halfDraw (SampleOutcome.resolved 100 1000 1040)
      (by decide)).1,
   ⟨_, _, rfl, rfl, by decide, by decide⟩⟩

/-- The periodic tasks after `_initDiagnostic`: none added for an interval
`<= 0`, the sampler for a positive one, and the leaderboard too at verbose
level 3. -/
theorem initDiagnostic_intervals (neo : Neo) :
    (neo.options.diagnosticInterval ≤ 0 → (_initDiagnostic neo).intervals = neo.intervals) ∧
    (0 < neo.options.diagnosticInterval → neo.options.verboseLevel < 3 →
      (_initDiagnostic neo).intervals = neo.intervals ++
        [{ task := Task.diagnoseRandomNode, period := neo.options.diagnosticInterval }]) ∧
    (0 < neo.options.diagnosticInterval → 3 ≤ neo.options.verboseLevel →
      (_initDiagnostic neo).intervals = neo.intervals ++
        [{ task := Task.diagnoseRandomNode, period := neo.options.diagnosticInterval },
         { task := Task.leaderboard, period := 10000 }]) := by
  unfold _initDiagnostic
  refine ⟨fun h => ?_, fun h hv => ?_, fun h hv => ?_⟩
  · rw [if_pos h]
  · rw [if_neg (by omega)]
    simp only []
    rw [if_neg (by omega)]
  · rw [if_neg (by omega)]
    simp only []
    rw [if_pos hv]
    simp

/-- The state the constructor returns on a non-empty node list. -/
theorem newNeo_state (nodes : List PoolNode) (options : Options) (hne : nodes ≠ []) :
    ∃ neo0, newNeo nodes options = Except.ok neo0 ∧ PoolOk neo0 ∧
      neo0.nodes = nodes.modify initNodeObject 0 ∧
      neo0.intervals = (_initDiagnostic ⟨options, nodes, none, none, []⟩).intervals := by
  let start : Neo := ⟨options, nodes, none, none, []⟩
  obtain ⟨neo1, h1, hcur, hnodes, hopt, hint, _⟩ :=
    setCurrentNode_ok start 0 (List.length_pos.mpr hne)
  have hfirst : firstNode start = some 0 := firstNode_of_ne_nil start hne
  obtain ⟨hn, hc, _⟩ := initDiagnostic_frame neo1
  refine ⟨_initLocalNode (_initDiagnostic neo1), ?_, ?_, ?_, ?_⟩
  · show (match setDefaultNode start with
      | Except.error e => Except.error e
      | Except.ok neo1 => Except.ok (_initLocalNode (_initDiagnostic neo1))) = _
    simp only [setDefaultNode, hfirst, h1]
  · unfold PoolOk _initLocalNode
    rw [hn, hc, hnodes, hcur]
    exact ⟨by simpa using hne, 0, rfl, by simpa using List.length_pos.mpr hne⟩
  · unfold _initLocalNode
    rw [hn, hnodes]
  · unfold _initLocalNode
    have e1 := initDiagnostic_intervals neo1
    have e2 := initDiagnostic_intervals start
    rw [hopt, hint] at e1
    rcases Int.lt_or_le 0 options.diagnosticInterval with hd | hd
    · rcases Int.lt_or_le options.verboseLevel 3 with hv | hv
      · rw [e1.2.1 hd hv, e2.2.1 hd hv]
      · rw [e1.2.2 hd hv, e2.2.2 hd hv]
    · rw [e1.1 hd, e2.1 hd]

/-- Without any registration no timer firing does anything. -/
theorem runTimers_no_intervals (firings : List (Nat × UnitDraw × SampleOutcome)) (neo : Neo)
    (h : neo.intervals = []) : runTimers firings neo = Except.ok neo := by
  induction firings with
  | nil => rfl
  | cons f rest ih =>
    obtain ⟨k, draw, outcome⟩ := f
    simp only [runTimers, timerFires, h, List.getElem?_nil]
    exact ih

/-- With nothing known about any node both selections fall back to `nodes[0]`. -/
theorem selection_of_unknown (neo : Neo) (hne : neo.nodes ≠ [])
    (h : ∀ node ∈ neo.nodes, node.healthUnknown = true) :
    getFastestNode neo = some 0 ∧ getHighestNode neo = some 0 := by
  have hact : ∀ node ∈ neo.nodes, node.active ≠ some true := by
    intro node hn
    have := h node hn
    simp only [PoolNode.healthUnknown, Bool.and_eq_true, Option.isNone_iff_eq_none] at this
    rw [this.1.1]
    simp
  constructor
  · simp only [getFastestNode, minBy, filterActive_eq_nil neo.nodes hact, baseExtremum,
      Option.map_none']
    exact firstNode_of_ne_nil neo hne
  · simp only [getHighestNode, maxBy, filterActive_eq_nil neo.nodes hact, baseExtremum,
      Option.map_none']
    exact firstNode_of_ne_nil neo hne

/-- The initialisation of a node leaves unknown health unknown. -/
theorem healthUnknown_modify_initNode (nodes : List PoolNode) (i : Nat)
    (h : ∀ node ∈ nodes, node.healthUnknown = true) :
    ∀ node ∈ nodes.modify initNodeObject i, node.healthUnknown = true := by
  intro node hn
  obtain ⟨j, hj⟩ := List.mem_iff_getElem?.mp hn
  rw [List.getElem?_modify] at hj
  cases hget : nodes[j]? with
  | none => rw [hget] at hj; cases hj
  | some node0 =>
    rw [hget] at hj
    have h0 := h node0 (List.mem_iff_getElem?.mpr ⟨j, hget⟩)
    simp only [Option.map_eq_map, Option.map_some', Option.some.injEq] at hj
    subst hj
    obtain ⟨ha, hl, hb⟩ := initNodeObject_fields node0
    split_ifs
    · simp only [PoolNode.healthUnknown, ha, hl, hb] at h0 ⊢
      exact h0
    · exact h0

/-- C17.  The default `diagnosticInterval` is 0.  A client constructed on a
non-empty node list with interval 0 has no periodic task, so no timer firing
ever changes it, and if nothing is known about the health of its nodes at
construction that stays so and both selections return `nodes[0]`.  A client
constructed with an interval `d > 0` has exactly one sampler task, the first
registration, with period `d`, and each of its ticks is one run of
`_diagnoseRandomNode`; the only other task there can be is the leaderboard at
verbose level 3. -/
theorem diagnostic_interval_tasks (nodes : List PoolNode) (options : Options)
    (hne : nodes ≠ []) :
    Defaults.diagnosticInterval = 0 ∧
    (options.diagnosticInterval = 0 →
      ∃ neo0, newNeo nodes options = Except.ok neo0 ∧ neo0.intervals = [] ∧
        (∀ firings, runTimers firings neo0 = Except.ok neo0) ∧
        ((∀ node ∈ nodes, node.healthUnknown = true) →
          (∀ node ∈ neo0.nodes, node.healthUnknown = true) ∧
          getFastestNode neo0 = some 0 ∧ getHighestNode neo0 = some 0)) ∧
    (0 < options.diagnosticInterval →
      ∃ neo0, newNeo nodes options = Except.ok neo0 ∧
        samplerIntervals neo0
          = [{ task := Task.diagnoseRandomNode, period := options.diagnosticInterval }] ∧
        neo0.intervals[0]?
          = some { task := Task.diagnoseRandomNode, period := options.diagnosticInterval } ∧
        (∀ neo draw outcome, neo.intervals = neo0.intervals →
          timerFires 0 draw outcome neo = _diagnoseRandomNode draw outcome neo) ∧
        neo0.intervals.length = (if options.verboseLevel ≥ 3 then 2 else 1)) := by
  obtain ⟨neo0, h0, hok, hnodes, hint⟩ := newNeo_state nodes options hne
  have e := initDiagnostic_intervals ⟨options, nodes, none, none, []⟩
  simp only [List.nil_append] at e
  refine ⟨rfl, fun hd => ?_, fun hd => ?_⟩
  · have hnil : neo0.intervals = [] := by rw [hint, e.1 (le_of_eq hd)]
    refine ⟨neo0, h0, hnil, fun firings => runTimers_no_intervals firings neo0 hnil, fun hunk => ?_⟩
    have hunk0 : ∀ node ∈ neo0.nodes, node.healthUnknown = true := by
      rw [hnodes]
      exact healthUnknown_modify_initNode nodes 0 hunk
    exact ⟨hunk0, selection_of_unknown neo0 hok.1 hunk0⟩
  · rcases Int.lt_or_le options.verboseLevel 3 with hv | hv
    · have hi : neo0.intervals
          = [{ task := Task.diagnoseRandomNode, period := options.diagnosticInterval }] := by
        rw [hint, e.2.1 hd hv]
      refine ⟨neo0, h0, by simp [samplerIntervals, hi], by simp [hi], ?_, ?_⟩
      · intro neo draw outcome hsame
        simp [timerFires, hsame, hi, Task.run]
      · rw [hi, if_neg (by omega)]
        rfl
    · have hi : neo0.intervals
          = [{ task := Task.diagnoseRandomNode, period := options.diagnosticInterval },
             { task := Task.leaderboard, period := 10000 }] := by
        rw [hint, e.2.2 hd hv]
      refine ⟨neo0, h0, by simp [samplerIntervals, hi], by simp [hi], ?_, ?_⟩
      · intro neo draw outcome hsame
        simp [timerFires, hsame, hi, Task.run]
      · rw [hi, if_pos (by omega)]
        rfl

/-- C17 at three fresh nodes, with the default options and with the sampler
every 1000 ms. -/
theorem diagnostic_interval_tasks_witness :
    freshNodes ≠ [] ∧ Defaults.diagnosticInterval = 0 ∧
    (∃ neo0, newNeo freshNodes Defaults = Except.ok neo0 ∧ neo0.intervals = [] ∧
        (∀ firings, runTimers firings neo0 = Except.ok neo0) ∧
        ((∀ node ∈ freshNodes, node.healthUnknown = true) →
          (∀ node ∈ neo0.nodes, node.healthUnknown = true) ∧
          getFastestNode neo0 = some 0 ∧ getHighestNode neo0 = some 0)) ∧
    0 < sampledOptions.diagnosticInterval ∧
    (∃ neo0, newNeo freshNodes sampledOptions = Except.ok neo0 ∧
        samplerIntervals neo0
          = [{ task := Task.diagnoseRandomNode, period := sampledOptions.diagnosticInterval }] ∧
        neo0.intervals[0]?
          = some { task := Task.diagnoseRandomNode,
                   period := sampledOptions.diagnosticInterval } ∧
        (∀ neo draw outcome, neo.intervals = neo0.intervals →
          timerFires 0 draw outcome neo = _diagnoseRandomNode draw outcome neo) ∧
        neo0.intervals.length = (if sampledOptions.verboseLevel ≥ 3 then 2 else 1)) :=
  ⟨by decide, rfl, (diagnostic_interval_tasks freshNodes Defaults (by decide)).2.1 rfl,
    by decide, (diagnostic_interval_tasks freshNodes sampledOptions (by decide)).2.2 (by decide)⟩

/-- The sampled index is the floor of the double product, and it is not
negative. -/
theorem targetIndex_eq_floor (draw : UnitDraw) (length : Nat) :
    Int.floor (doubleProduct draw length) = (targetIndex draw length : Int) ∧
    0 ≤ Int.floor (doubleProduct draw length) := by
  have h : Int.floor (doubleProduct draw length) = (targetIndex draw length : Int) := by
    unfold doubleProduct targetIndex
    rw [Rat.floor_natCast_div_natCast]
    norm_cast
  exact ⟨h, by rw [h]; exact Int.natCast_nonneg _⟩

/-- The rounding of the product is part of the index: at the double nearest to
`4/7` and length 7 the exact product is below 4 and the double product is `4.0`,
so the index is 4; at the double nearest to `2/3` and length 3 the index is 2. -/
theorem targetIndex_rounds_up :
    (fourSevenths.m * 7 / 2 ^ fourSevenths.j = 3 ∧ targetIndex fourSevenths 7 = 4) ∧
    (twoThirds.m * 3 / 2 ^ twoThirds.j = 1 ∧ targetIndex twoThirds 3 = 2) :=
  ⟨⟨by decide, by decide⟩, by decide, by decide⟩

/-- Every index of an array is drawn: the least multiple of `2^-53` that is at
least `k / n` gives the index `k`. -/
theorem targetIndex_drawFor (k n : Nat) (hk : k < n) (hn : n < 2 ^ 32) :
    targetIndex (drawFor k n hk hn) n = k := by
  have hpos : 0 < n := by omega
  have hP : (2 : Nat) ^ 32 < 2 ^ 53 := by norm_num
  -- the exact numerator N = m * n lies in [k * 2^53, k * 2^53 + n)
  have hlow : k * 2 ^ 53 ≤ (k * 2 ^ 53 + (n - 1)) / n * n := by
    have hmod := Nat.div_add_mod (k * 2 ^ 53 + (n - 1)) n
    have hlt := Nat.mod_lt (k * 2 ^ 53 + (n - 1)) hpos
    have hc : n * ((k * 2 ^ 53 + (n - 1)) / n) = (k * 2 ^ 53 + (n - 1)) / n * n :=
      Nat.mul_comm _ _
    omega
  have hhigh : (k * 2 ^ 53 + (n - 1)) / n * n ≤ k * 2 ^ 53 + (n - 1) :=
    Nat.div_mul_le_self _ _
  unfold targetIndex productNumerator
  simp only [drawFor]
  generalize (k * 2 ^ 53 + (n - 1)) / n * n = N at hlow hhigh ⊢
  split_ifs with hN
  · have hk0 : k = 0 := by
      by_contra hne
      have : 2 ^ 53 ≤ k * 2 ^ 53 := Nat.le_mul_of_pos_left _ (Nat.pos_of_ne_zero hne)
      omega
    subst hk0
    exact Nat.div_eq_of_lt hN
  · have hN' : 2 ^ 53 ≤ N := Nat.le_of_not_lt hN
    have hne : N ≠ 0 := by
      intro h0; rw [h0] at hN'; norm_num at hN'
    obtain ⟨hbl, hbh⟩ := bitLength_spec N hne
    have hb54 : 54 ≤ bitLength N := by
      by_contra hc
      have : 2 ^ bitLength N ≤ 2 ^ 53 := Nat.pow_le_pow_right (by norm_num) (by omega)
      omega
    have hN85 : N < 2 ^ 85 := by
      have h1 : k * 2 ^ 53 + 2 ^ 53 ≤ n * 2 ^ 53 := by
        have := Nat.mul_le_mul_right (2 ^ 53) (show k + 1 ≤ n from hk)
        have e : (k + 1) * 2 ^ 53 = k * 2 ^ 53 + 2 ^ 53 := by ring
        omega
      have h2 : n * 2 ^ 53 < 2 ^ 32 * 2 ^ 53 := Nat.mul_lt_mul_of_pos_right hn (by norm_num)
      have h3 : (2 : Nat) ^ 32 * 2 ^ 53 = 2 ^ 85 := by norm_num
      omega
    have hb85 : bitLength N ≤ 85 := by
      by_contra hc
      have : 2 ^ 85 ≤ 2 ^ (bitLength N - 1) := Nat.pow_le_pow_right (by norm_num) (by omega)
      omega
    have hs32 : bitLength N - 53 ≤ 32 := by omega
    have hS : 2 ^ (bitLength N - 53) ≤ 2 ^ 32 := Nat.pow_le_pow_right (by norm_num) hs32
    -- 2^53 is a multiple of the rounding quantum
    have hsplit : (2 : Nat) ^ 53 = 2 ^ (53 - (bitLength N - 53)) * 2 ^ (bitLength N - 53) := by
      rw [← Nat.pow_add]; congr 1; omega
    have hup := roundHalfEven_upper N (bitLength N - 53)
    have hlo := roundHalfEven_lower N (bitLength N - 53)
    have hfloor : k * 2 ^ 53 ≤ N / 2 ^ (bitLength N - 53) * 2 ^ (bitLength N - 53) := by
      have hkq : k * 2 ^ (53 - (bitLength N - 53)) ≤ N / 2 ^ (bitLength N - 53) := by
        rw [Nat.le_div_iff_mul_le (Nat.two_pow_pos _)]
        calc k * 2 ^ (53 - (bitLength N - 53)) * 2 ^ (bitLength N - 53)
            = k * (2 ^ (53 - (bitLength N - 53)) * 2 ^ (bitLength N - 53)) := by ring
          _ = k * 2 ^ 53 := by rw [← hsplit]
          _ ≤ N := hlow
      calc k * 2 ^ 53 = k * (2 ^ (53 - (bitLength N - 53)) * 2 ^ (bitLength N - 53)) := by
            rw [← hsplit]
        _ = k * 2 ^ (53 - (bitLength N - 53)) * 2 ^ (bitLength N - 53) := by ring
        _ ≤ N / 2 ^ (bitLength N - 53) * 2 ^ (bitLength N - 53) :=
            Nat.mul_le_mul_right _ hkq
    have hRlow : k * 2 ^ 53 ≤ roundHalfEven N (bitLength N - 53) * 2 ^ (bitLength N - 53) :=
      Nat.le_trans hfloor (Nat.mul_le_mul_right _ hlo)
    generalize roundHalfEven N (bitLength N - 53) * 2 ^ (bitLength N - 53) = R at hup hRlow ⊢
    generalize 2 ^ (bitLength N - 53) = S at hup hS
    have hRhigh : R < (k + 1) * 2 ^ 53 := by
      have e : (k + 1) * 2 ^ 53 = k * 2 ^ 53 + 2 ^ 53 := by ring
      omega
    exact Nat.div_eq_of_lt_le hRlow hRhigh

/-- C19.  For an array of `n >= 1` nodes (`n < 2^32`, as for every JavaScript
array) and every double `0 <= r < 1` that `Math.random()` can return, the index
`Math.floor(r * n)`, with the product rounded as the double multiplication
rounds it, satisfies `0 <= index < n`; so on a pool of `n` nodes the sampled node
is a member of `nodes` and the sampler starts without a throw; and every index
below `n` is the index of some such double. -/
theorem targetIndex_range (n : Nat) (hn : 1 ≤ n) (harray : n < 2 ^ 32) :
    (∀ draw : UnitDraw, 0 ≤ Int.floor (doubleProduct draw n) ∧
      Int.floor (doubleProduct draw n) = (targetIndex draw n : Int) ∧
      Int.floor (doubleProduct draw n) < (n : Int) ∧ targetIndex draw n < n) ∧
    (∀ (neo : Neo) (draw : UnitDraw), neo.nodes.length = n →
      (neo.nodes[targetIndex draw n]?).isSome = true ∧
      ∃ neo1, diagnoseStart draw neo = Except.ok (neo1, targetIndex draw n)) ∧
    (∀ k, k < n → ∃ draw : UnitDraw, targetIndex draw n = k) := by
  refine ⟨fun draw => ?_, fun neo draw hlen => ?_,
    fun k hk => ⟨drawFor k n hk harray, targetIndex_drawFor k n hk harray⟩⟩
  · obtain ⟨hfloor, hnonneg⟩ := targetIndex_eq_floor draw n
    have hlt := targetIndex_lt draw n hn
    exact ⟨hnonneg, hfloor, by rw [hfloor]; exact_mod_cast hlt, hlt⟩
  · have hlt : targetIndex draw neo.nodes.length < neo.nodes.length := by
      rw [hlen]; exact targetIndex_lt draw n hn
    constructor
    · rw [← hlen, List.getElem?_eq_getElem hlt]; rfl
    · rw [← hlen]
      exact ⟨{ neo with nodes := neo.nodes.modify initNodeObject (targetIndex draw neo.nodes.length) },
        by simp only [diagnoseStart, if_pos hlt, _initNode]⟩

/-- C19 at three nodes. -/
theorem targetIndex_range_witness :
    1 ≤ 3 ∧ 3 < 2 ^ 32 ∧
    (∀ draw : UnitDraw, 0 ≤ Int.floor (doubleProduct draw 3) ∧
      Int.floor (doubleProduct draw 3) = (targetIndex draw 3 : Int) ∧
      Int.floor (doubleProduct draw 3) < ((3 : Nat) : Int) ∧ targetIndex draw 3 < 3) ∧
    (∀ k, k < 3 → ∃ draw : UnitDraw, targetIndex draw 3 = k) :=
  ⟨by decide, by decide, (targetIndex_range 3 (by decide) (by decide)).1,
    (targetIndex_range 3 (by decide) (by decide)).2.2⟩

/-! ## The node pool: the event bindings -/

/-- The first node with a given url is what `findByUrl` returns. -/
theorem findByUrl_first (nodes : List PoolNode) (url : String) (i : Nat) (node : PoolNode)
    (hi : nodes[i]? = some node) (hurl : node.url = some url)
    (hfirst : ∀ j nj, j < i → nodes[j]? = some nj → nj.url ≠ some url) :
    findByUrl nodes url = some i := by
  unfold findByUrl
  rw [List.findIdx?_eq_some_iff_getElem]
  obtain ⟨hlt, hget⟩ := List.getElem?_eq_some.mp hi
  refine ⟨hlt, ?_, ?_⟩
  · rw [hget]; simpa using hurl
  · intro j hji
    have hjl : j < nodes.length := Nat.lt_trans hji hlt
    have := hfirst j nodes[j] hji (List.getElem?_eq_getElem hjl)
    simpa using this

/-- A write to one position that fixes the element there changes nothing. -/
theorem modify_fixed {α : Type} (f : α → α) (l : List α) (i : Nat) (a : α)
    (hi : l[i]? = some a) (hf : f a = a) : l.modify f i = l := by
  apply List.ext_getElem?
  intro j
  by_cases hij : i = j
  · subst hij
    rw [List.getElem?_modify_eq, hi]
    simp [hf]
  · rw [List.getElem?_modify_ne _ _ hij]

/-- The node list after a listener body on a node whose counter is an integer. -/
theorem bump_spec (d : Int) (neo : Neo) (i : Nat) (node : PoolNode) (k : Int)
    (hi : neo.nodes[i]? = some node) (hk : node.pendingRequests = JSNumber.int k) :
    (neo.nodes.modify (bumpPendingRequests d) i)[i]?
      = some { node with pendingRequests := JSNumber.int (k + d) } ∧
    (∀ j, j ≠ i → (neo.nodes.modify (bumpPendingRequests d) i)[j]? = neo.nodes[j]?) := by
  constructor
  · rw [List.getElem?_modify_eq, hi]
    simp [bumpPendingRequests, hk, JSNumber.plus]
  · intro j hj
    rw [List.getElem?_modify_ne _ _ (Ne.symm hj)]

/-- A bump and its opposite cancel on a node whose counter is an integer. -/
theorem bump_cancel (d : Int) (nodes : List PoolNode) (i : Nat) (node : PoolNode) (k : Int)
    (hi : nodes[i]? = some node) (hk : node.pendingRequests = JSNumber.int k) :
    (nodes.modify (bumpPendingRequests d) i).modify (bumpPendingRequests (-d)) i = nodes := by
  rw [List.modify_modify_eq]
  apply modify_fixed _ _ _ node hi
  cases node with
  | mk scheme host port url rpc pendingRequests active latency blockHeight =>
    simp only at hk
    subst hk
    simp [bumpPendingRequests, JSNumber.plus]

/-- A bump changes no url, so `findByUrl` finds the same node after it. -/
theorem findByUrl_modify_bump (d : Int) (nodes : List PoolNode) (i : Nat) (url : String) :
    findByUrl (nodes.modify (bumpPendingRequests d) i) url = findByUrl nodes url := by
  unfold findByUrl
  have hmap : (nodes.modify (bumpPendingRequests d) i).map PoolNode.url = nodes.map PoolNode.url := by
    apply List.ext_getElem?
    intro j
    simp only [List.getElem?_map, List.getElem?_modify]
    cases nodes[j]? with
    | none => rfl
    | some a =>
      simp only [Option.map_eq_map, Option.map_some']
      split_ifs <;> rfl
  have h1 := List.findIdx?_map (p := fun u => decide (u = some url)) PoolNode.url
    (nodes.modify (bumpPendingRequests d) i)
  have h2 := List.findIdx?_map (p := fun u => decide (u = some url)) PoolNode.url nodes
  rw [hmap] at h1
  exact h1.symm.trans h2

/-- C20 fails as stated.  A client constructed over two enum entries, the second
bringing its own `url`, has that second node uninitialised: `pendingRequests`
is absent.  An `rpc:call` event with the url of that node turns its
`pendingRequests` into `NaN`, which is no increase by 1, and a following
`rpc:call:response` leaves `NaN`, which is not the value before. -/
theorem rpc_call_on_uninitialised_node :
    ∃ neo0, newNeo byoNodes Defaults = Except.ok neo0 ∧
      neo0.nodes.map PoolNode.url = [some "http://seed1:10332", some "http://seed2:10332"] ∧
      neo0.nodes.map PoolNode.pendingRequests = [JSNumber.int 0, JSNumber.undefined] ∧
      neo0.currentNode = some 0 ∧
      ∃ neo1, poolEmit "rpc:call" "http://seed2:10332" neo0 = Except.ok neo1 ∧
        neo1.nodes.map PoolNode.pendingRequests = [JSNumber.int 0, JSNumber.nan] ∧
        (∀ k : Int, JSNumber.nan ≠ JSNumber.int k) ∧
        ∃ neo2, poolEmit "rpc:call:response" "http://seed2:10332" neo1 = Except.ok neo2 ∧
          neo2.nodes.map PoolNode.pendingRequests = [JSNumber.int 0, JSNumber.nan] ∧
          JSNumber.nan ≠ JSNumber.undefined :=
  ⟨_, rfl, by decide, by decide, by decide, _, rfl, by decide, fun k => by simp, _, rfl,
    by decide, by decide⟩

/-- C20, amended.  For every event whose url is the url of a pool node, the
first such node in pool order having an integer `pendingRequests` (as every node
has once `_initNode` has run on it): `rpc:call` adds 1 to, and
`rpc:call:response` and `rpc:call:error` each take 1 off, the `pendingRequests`
of that node, with its other fields, every other node and `currentNode` as
before; and `rpc:call` followed by `rpc:call:response` or `rpc:call:error` for
the same url gives back the state before. -/
theorem rpc_events_pendingRequests (neo : Neo) (url : String) (i : Nat) (node : PoolNode)
    (k : Int) (hi : neo.nodes[i]? = some node) (hurl : node.url = some url)
    (hfirst : ∀ j nj, j < i → neo.nodes[j]? = some nj → nj.url ≠ some url)
    (hk : node.pendingRequests = JSNumber.int k) :
    (∃ neo1, poolEmit "rpc:call" url neo = Except.ok neo1 ∧
      neo1.nodes[i]? = some { node with pendingRequests := JSNumber.int (k + 1) } ∧
      (∀ j, j ≠ i → neo1.nodes[j]? = neo.nodes[j]?) ∧
      neo1.currentNode = neo.currentNode ∧
      poolEmit "rpc:call:response" url neo1 = Except.ok neo ∧
      poolEmit "rpc:call:error" url neo1 = Except.ok neo) ∧
    (∃ neo1, poolEmit "rpc:call:response" url neo = Except.ok neo1 ∧
      neo1.nodes[i]? = some { node with pendingRequests := JSNumber.int (k - 1) } ∧
      (∀ j, j ≠ i → neo1.nodes[j]? = neo.nodes[j]?) ∧
      neo1.currentNode = neo.currentNode) ∧
    (∃ neo1, poolEmit "rpc:call:error" url neo = Except.ok neo1 ∧
      neo1.nodes[i]? = some { node with pendingRequests := JSNumber.int (k - 1) } ∧
      (∀ j, j ≠ i → neo1.nodes[j]? = neo.nodes[j]?) ∧
      neo1.currentNode = neo.currentNode) := by
  have hfind := findByUrl_first neo.nodes url i node hi hurl hfirst
  have hup := bump_spec 1 neo i node k hi hk
  have hdown := bump_spec (-1) neo i node k hi hk
  have hfind1 : findByUrl (neo.nodes.modify (bumpPendingRequests 1) i) url = some i := by
    rw [findByUrl_modify_bump]; exact hfind
  have hback := bump_cancel 1 neo.nodes i node k hi hk
  refine ⟨⟨{ neo with nodes := neo.nodes.modify (bumpPendingRequests 1) i }, ?_, hup.1, hup.2,
    rfl, ?_, ?_⟩, ⟨{ neo with nodes := neo.nodes.modify (bumpPendingRequests (-1)) i }, ?_,
    hdown.1, hdown.2, rfl⟩, ⟨{ neo with nodes := neo.nodes.modify (bumpPendingRequests (-1)) i },
    ?_, hdown.1, hdown.2, rfl⟩⟩
  · simp [poolEmit, onRpcCall, hfind]
  · simp [poolEmit, onRpcCallResponse, hfind1, hback]
  · simp [poolEmit, onRpcCallError, hfind1, hback]
  · simp [poolEmit, onRpcCallResponse, hfind]
  · simp [poolEmit, onRpcCallError, hfind]

/-- C20, amended, at a pool in which two nodes share the url of the event. -/
theorem rpc_events_pendingRequests_witness :
    (twinPool.nodes[1]? = some { poolNode "seed1" none none none with
        url := some "http://seed1:10332", pendingRequests := JSNumber.int 2 }) ∧
    (∃ neo1, poolEmit "rpc:call" "http://seed1:10332" twinPool = Except.ok neo1 ∧
      neo1.nodes[1]? = some { poolNode "seed1" none none none with
        url := some "http://seed1:10332", pendingRequests := JSNumber.int (2 + 1) } ∧
      (∀ j, j ≠ 1 → neo1.nodes[j]? = twinPool.nodes[j]?) ∧
      neo1.currentNode = twinPool.currentNode ∧
      poolEmit "rpc:call:response" "http://seed1:10332" neo1 = Except.ok twinPool ∧
      poolEmit "rpc:call:error" "http://seed1:10332" neo1 = Except.ok twinPool) :=
  ⟨by decide,
   (rpc_events_pendingRequests twinPool "http://seed1:10332" 1
      { poolNode "seed1" none none none with
        url := some "http://seed1:10332", pendingRequests := JSNumber.int 2 } 2
      (by decide) (by decide)
      (by
        intro j nj hj hget
        have hj0 : j = 0 := by omega
        subst hj0
        have : nj = { poolNode "seed0" none none none with
            url := some "http://seed0:10332", pendingRequests := JSNumber.int 1 } := by
          have h0 : twinPool.nodes[0]? = some { poolNode "seed0" none none none with
            url := some "http://seed0:10332", pendingRequests := JSNumber.int 1 } := by decide
          rw [h0] at hget
          exact (Option.some.inj hget).symm
        subst this
        decide)
      (by decide)).1⟩

end NeoJs
